import Mathlib

/-!
Verification development for the entity-reference extraction and usage-analysis
engine of `custom_components/config_mcp_test/validation.py`.

The configuration trees scanned by the engine are JSON-like Python values
(dicts, lists, strings, numbers, booleans, None).  They are embedded as the
inductive type `ConfigNode`; Python dicts become insertion-ordered association
lists, matching the ordered iteration the source relies on.

The scanner functions `extract_entity_references` and `extract_entity_locations`
are translated branch for branch from the source.  Python's mutable accumulator
arguments (`entities`, `locations`) become explicit accumulator parameters.
-/

namespace HaCrud

/-- A JSON-like configuration tree node (Python dict / list / scalar). -/
inductive ConfigNode where
  | str (s : String)
  | num (n : Int)
  | bool (b : Bool)
  | null
  | obj (entries : List (String × ConfigNode))
  | list (elems : List ConfigNode)

/-! ### The entity-id pattern

`ENTITY_ID_PATTERN = re.compile(r"^[a-z][a-z0-9_]*\.[a-z0-9_]+$")` and
`_is_entity_id` checks `isinstance(value, str)` before matching.
Since the character classes exclude `.`, the regex engine is deterministic:
the string must be one `[a-z][a-z0-9_]*` block, a literal dot, then one
`[a-z0-9_]+` block.  Python's `$` anchor also matches just before a single
trailing newline, which `stripFinalNewline` reproduces. -/

def isLowerAlpha (c : Char) : Bool := 'a' ≤ c && c ≤ 'z'

def isWordChar (c : Char) : Bool := isLowerAlpha c || ('0' ≤ c && c ≤ '9') || c == '_'

/-- The `[a-z0-9_]+$` part after the dot. -/
def matchObjectId : List Char → Bool
  | [] => false
  | c :: rest => isWordChar c && rest.all isWordChar

/-- The `[a-z0-9_]*\.[a-z0-9_]+$` part after the leading letter. -/
def matchAfterFirst : List Char → Bool
  | [] => false
  | c :: rest => if c == '.' then matchObjectId rest else isWordChar c && matchAfterFirst rest

def matchEntityId : List Char → Bool
  | [] => false
  | c :: rest => isLowerAlpha c && matchAfterFirst rest

/-- Python's `$` matches at the end of the string or just before a final newline. -/
def stripFinalNewline (cs : List Char) : List Char :=
  match cs.reverse with
  | '\n' :: rest => rest.reverse
  | _ => cs

/-- `bool(ENTITY_ID_PATTERN.match(s))` for a string `s`. -/
def isEntityId (s : String) : Bool :=
  matchEntityId (stripFinalNewline s.data)

/-- Keys that commonly contain entity references (frozenset `ENTITY_KEYS`). -/
def ENTITY_KEYS : List String :=
  ["entity", "entity_id", "camera_entity", "camera_image", "media_player", "state_entity"]

/-- Keys that contain lists of entities (frozenset `ENTITY_LIST_KEYS`). -/
def ENTITY_LIST_KEYS : List String := ["entities", "state_filter"]

/-- `_is_entity_id(value)`: `False` for every non-string value. -/
def is_entity_id : ConfigNode → Bool
  | .str s => isEntityId s
  | _ => false

/-- Python dict lookup `d.get(key)` on the association-list embedding
(keys of a Python dict are unique, so first match is the match). -/
def dictGet : List (String × ConfigNode) → String → Option ConfigNode
  | [], _ => none
  | (k, v) :: rest, key => if k == key then some v else dictGet rest key

/-! ### `extract_entity_references` (validation.py lines 141-192)

The Python set `entities` is embedded as a duplicate-free `List String`
accumulator; `addRef` is `set.add`. -/

def addRef (acc : List String) (e : String) : List String :=
  if acc.contains e then acc else acc ++ [e]

/-- `entities.add(value)` at a call site where `_is_entity_id(value)` held
(so `value` is a string). -/
def addValue (acc : List String) : ConfigNode → List String
  | .str s => addRef acc s
  | _ => acc

/-- The loop over a `target.entity_id` list: `for eid in target_entity: if
_is_entity_id(eid): entities.add(eid)`. -/
def targetListRefs : List ConfigNode → List String → List String
  | [], acc => acc
  | x :: rest, acc =>
      targetListRefs rest (if is_entity_id x then addValue acc x else acc)

/-- The `key == "target" and isinstance(value, dict)` branch:
`target_entity = value.get("entity_id")`; a valid single id is added, a list is
scanned for valid ids, anything else (including a missing key) does nothing.
The target object is never recursed into. -/
def targetRefs (kvs : List (String × ConfigNode)) (acc : List String) : List String :=
  match dictGet kvs "entity_id" with
  | some (.str s) => if isEntityId s then addRef acc s else acc
  | some (.list xs) => targetListRefs xs acc
  | _ => acc

mutual

/-- `extract_entity_references(config, entities)`.  Dispatch on the node kind:
dicts go through the per-key convention cascade, lists recurse element-wise,
scalars contribute nothing. -/
def extract_entity_references : ConfigNode → List String → List String
  | .obj entries, acc => refsObj entries acc
  | .list xs, acc => refsList xs acc
  | _, acc => acc

/-- The `for key, value in config.items()` loop of `extract_entity_references`.
The branch cascade is the source's: (1) `key in ENTITY_KEYS and
_is_entity_id(value)`; (2) `key in ENTITY_LIST_KEYS and isinstance(value,
list)`; (3) `key == "target" and isinstance(value, dict)`; (4) generic
recursion.  The cascade is expressed by first matching on the value's kind;
this is equivalent because `ENTITY_KEYS`, `ENTITY_LIST_KEYS` and `"target"`
are pairwise disjoint and branch (1) requires a string value: for a list value
only branches (2) and generic-recursion can fire, for a dict value only (3)
and generic recursion, and for a scalar value only (1) and generic recursion
(which is a no-op on scalars). -/
def refsObj : List (String × ConfigNode) → List String → List String
  | [], acc => acc
  | (key, value) :: rest, acc =>
      refsObj rest
        (if ENTITY_KEYS.contains key && is_entity_id value then
          addValue acc value
        else match value with
          | .list xs =>
              if ENTITY_LIST_KEYS.contains key then refsEntityList xs acc
              else refsList xs acc
          | .obj kvs =>
              if key == "target" then targetRefs kvs acc
              else refsObj kvs acc
          | _ => acc)

/-- The loop over an `ENTITY_LIST_KEYS` list value: scalar elements are tested
against the pattern; dict elements get their `"entity"` key tested and are
then recursed into; other elements are skipped. -/
def refsEntityList : List ConfigNode → List String → List String
  | [], acc => acc
  | item :: rest, acc =>
      refsEntityList rest
        (if is_entity_id item then addValue acc item
         else match item with
           | .obj kvs =>
              let acc1 :=
                match dictGet kvs "entity" with
                | some v => if is_entity_id v then addValue acc v else acc
                | none => acc
              extract_entity_references (ConfigNode.obj kvs) acc1
           | _ => acc)

/-- The `isinstance(config, list)` branch: recurse into each element. -/
def refsList : List ConfigNode → List String → List String
  | [], acc => acc
  | x :: rest, acc => refsList rest (extract_entity_references x acc)

end

/-! ### `extract_entity_locations` (validation.py lines 222-287)

The Python dict `locations: dict[str, list[str]]` is embedded as an
insertion-ordered association list. -/

abbrev Locations := List (String × List String)

/-- `add_location(entity_id, path)`: create the entry on first sight, then
append the path to the entity's list. -/
def add_location : Locations → String → String → Locations
  | [], e, path => [(e, [path])]
  | (k, ps) :: rest, e, path =>
      if k == e then (k, ps ++ [path]) :: rest
      else (k, ps) :: add_location rest e path

/-- `add_location(value, path)` at a site guarded by `_is_entity_id(value)`. -/
def addValueLoc (locs : Locations) (v : ConfigNode) (path : String) : Locations :=
  match v with
  | .str s => add_location locs s path
  | _ => locs

/-- `f"{current_path}.{key}" if current_path else key`. -/
def childPath (parent key : String) : String :=
  if parent == "" then key else parent ++ "." ++ key

/-- Python `str.endswith`. -/
def strEndsWith (s suffix : String) : Bool := suffix.data.isSuffixOf s.data

/-- `current_path.endswith(".entities") or current_path == "entities"`. -/
def isEntitiesPath (p : String) : Bool := strEndsWith p ".entities" || p == "entities"

/-- The scene-style pass: `for key in config.keys(): if _is_entity_id(key):
add_location(key, current_path)` — run when the current path ends in
`entities`; the recorded path is the parent object's own path. -/
def entityKeysPass : List (String × ConfigNode) → String → Locations → Locations
  | [], _, locs => locs
  | (k, _) :: rest, p, locs =>
      entityKeysPass rest p (if isEntityId k then add_location locs k p else locs)

/-- `for idx, eid in enumerate(target_entity): if _is_entity_id(eid):
add_location(eid, f"{target_path}[{idx}]")`. -/
def targetListLocs : List ConfigNode → String → Nat → Locations → Locations
  | [], _, _, locs => locs
  | x :: rest, target_path, idx, locs =>
      targetListLocs rest target_path (idx + 1)
        (match x with
         | .str s =>
             if isEntityId s then
               add_location locs s (target_path ++ "[" ++ toString idx ++ "]")
             else locs
         | _ => locs)

/-- The `key == "target" and isinstance(value, dict)` branch of
`extract_entity_locations`, with `target_path = f"{child_path}.entity_id"`. -/
def targetLocs (kvs : List (String × ConfigNode)) (child_path : String)
    (locs : Locations) : Locations :=
  let target_path := child_path ++ ".entity_id"
  match dictGet kvs "entity_id" with
  | some (.str s) => if isEntityId s then add_location locs s target_path else locs
  | some (.list xs) => targetListLocs xs target_path 0 locs
  | _ => locs

mutual

/-- `extract_entity_locations(config, current_path, locations)`.  For a dict
the scene-style key pass runs first (when the path ends in `entities`), then
the per-key cascade; lists recurse with `[idx]` paths; scalars do nothing. -/
def extract_entity_locations : ConfigNode → String → Locations → Locations
  | .obj entries, current_path, locs =>
      locsObj entries current_path
        (if isEntitiesPath current_path then entityKeysPass entries current_path locs
         else locs)
  | .list xs, current_path, locs => locsList xs current_path 0 locs
  | _, _, locs => locs

/-- The `for key, value in config.items()` loop of `extract_entity_locations`.
Same cascade as `refsObj`, recording paths. -/
def locsObj : List (String × ConfigNode) → String → Locations → Locations
  | [], _, locs => locs
  | (key, value) :: rest, current_path, locs =>
      locsObj rest current_path
        (if ENTITY_KEYS.contains key && is_entity_id value then
          addValueLoc locs value (childPath current_path key)
        else match value with
          | .list xs =>
              if ENTITY_LIST_KEYS.contains key then
                locsEntityList xs (childPath current_path key) 0 locs
              else locsList xs (childPath current_path key) 0 locs
          | .obj kvs =>
              if key == "target" then targetLocs kvs (childPath current_path key) locs
              else extract_entity_locations (ConfigNode.obj kvs) (childPath current_path key) locs
          | _ => locs)

/-- The loop over an `ENTITY_LIST_KEYS` list value with
`item_path = f"{child_path}[{idx}]"`; a dict element with a valid `"entity"`
key records `f"{item_path}.entity"` and is then recursed into as well. -/
def locsEntityList : List ConfigNode → String → Nat → Locations → Locations
  | [], _, _, locs => locs
  | item :: rest, child_path, idx, locs =>
      locsEntityList rest child_path (idx + 1)
        (if is_entity_id item then
          addValueLoc locs item (child_path ++ "[" ++ toString idx ++ "]")
         else match item with
           | .obj kvs =>
              let locs1 :=
                match dictGet kvs "entity" with
                | some v =>
                    if is_entity_id v then
                      addValueLoc locs v (child_path ++ "[" ++ toString idx ++ "]" ++ ".entity")
                    else locs
                | none => locs
              extract_entity_locations (ConfigNode.obj kvs)
                (child_path ++ "[" ++ toString idx ++ "]") locs1
           | _ => locs)

/-- The `isinstance(config, list)` branch with `item_path =
f"{current_path}[{idx}]"`. -/
def locsList : List ConfigNode → String → Nat → Locations → Locations
  | [], _, _, locs => locs
  | item :: rest, current_path, idx, locs =>
      locsList rest current_path (idx + 1)
        (extract_entity_locations item (current_path ++ "[" ++ toString idx ++ "]") locs)

end

/-- The key set of the embedded locations dict. -/
def keysOf (locs : Locations) : List String := locs.map Prod.fst

/-- `locations[e]` with default `[]`. -/
def lookupList : Locations → String → List String
  | [], _ => []
  | (k, ps) :: rest, e => if k == e then ps else lookupList rest e

/-- `e in locations`. -/
def hasKeyL (locs : Locations) (e : String) : Bool := locs.any (fun kv => kv.1 == e)

/-! ### `validate_dashboard_entities` (validation.py lines 195-215)

The Home Assistant instance enters only through `hass.states.get(entity_id) is
None`; it is abstracted as the list `existing` of entity ids that have a state
(`hass.states.get e` is not None iff `e ∈ existing`).  The source iterates
`sorted(referenced_entities)` and appends the missing ones, which is the
filter of the sorted list. -/

def validate_dashboard_entities (existing : List String) (config : ConfigNode) :
    List String :=
  let referenced_entities := extract_entity_references config []
  (List.insertionSort (fun a b => a ≤ b) referenced_entities).filter
    (fun e => !(existing.contains e))

/-! ### Entity usage discovery (validation.py lines 290-479)

`find_entity_usage` fans out to four collections owned by external
collaborators (`hass.data`).  Each collection is modelled as the list of its
owners; an owner whose configuration cannot be loaded (`async_load` raising,
a falsy `raw_config`/scene config, or the attribute missing) carries `none`
and is skipped, as in the source's `try/except` and truthiness guards. -/

/-- A Lovelace dashboard: `url_path`, the title from `async_get_info`, and the
loaded configuration (`none` when loading fails or yields nothing). -/
structure Dashboard where
  url_path : String
  title : String
  config : Option ConfigNode

/-- An automation entity: its `entity_id`, `entity.name` (`""` when falsy) and
`raw_config` (`none` when absent or falsy). -/
structure AutomationEnt where
  entity_id : String
  name : String
  raw_config : Option (List (String × ConfigNode))

/-- A script entity, same shape as an automation entity. -/
structure ScriptEnt where
  entity_id : String
  name : String
  raw_config : Option (List (String × ConfigNode))

/-- A scene entity; `config` is `scene_config` or `_config`, whichever the
source finds truthy first (`none` when neither). -/
structure SceneEnt where
  entity_id : String
  name : String
  config : Option (List (String × ConfigNode))

/-- A dashboard entry of the usage report: `{"id", "title", "locations"}`. -/
structure DashboardHit where
  id : String
  title : String
  locations : List String

/-- An automation entry: `{"id", "alias", "entity_id", "locations"}`.  The
`id`/`alias` fields come from `config.get(...)` and are arbitrary
configuration values. -/
structure AutomationHit where
  id : ConfigNode
  «alias» : ConfigNode
  entity_id : String
  locations : List String

/-- A script entry: `{"id", "alias", "entity_id", "locations"}`. -/
structure ScriptHit where
  id : ConfigNode
  «alias» : ConfigNode
  entity_id : String
  locations : List String

/-- A scene entry: `{"id", "name", "entity_id", "locations"}`. -/
structure SceneHit where
  id : ConfigNode
  name : ConfigNode
  entity_id : String
  locations : List String

/-- The `"usage"` sub-object with its four named collections. -/
structure Usage where
  dashboards : List DashboardHit
  automations : List AutomationHit
  scripts : List ScriptHit
  scenes : List SceneHit

/-- The full report: exactly the fields `entity_id`, `usage`,
`total_references`. -/
structure UsageReport where
  entity_id : String
  usage : Usage
  total_references : Nat

/-- `config.get(key, default)`. -/
def dictGetD (kvs : List (String × ConfigNode)) (key : String) (dflt : ConfigNode) :
    ConfigNode :=
  match dictGet kvs key with
  | some v => v
  | none => dflt

/-- `entity.name or fallback` (empty string is falsy). -/
def nameOr (name fallback : String) : String :=
  if name == "" then fallback else name

/-- `entity_id.split(".", 1)[1] if "." in entity_id else entity_id`. -/
def idAfterDot (s : String) : String :=
  if s.data.contains '.' then
    String.mk ((s.data.dropWhile (fun c => c != '.')).drop 1)
  else s

/-- `find_entity_usage_in_dashboards`: scan each loadable dashboard config and
emit an entry when the entity appears in its location map. -/
def find_entity_usage_in_dashboards (entity_id : String) :
    List Dashboard → List DashboardHit
  | [] => []
  | d :: rest =>
      let tail := find_entity_usage_in_dashboards entity_id rest
      match d.config with
      | some cfg =>
          let all_locations := extract_entity_locations cfg "" []
          if hasKeyL all_locations entity_id then
            DashboardHit.mk (if d.url_path == "" then "lovelace" else d.url_path)
              d.title (lookupList all_locations entity_id) :: tail
          else tail
      | none => tail

/-- `find_entity_usage_in_automations`. -/
def find_entity_usage_in_automations (entity_id : String) :
    List AutomationEnt → List AutomationHit
  | [] => []
  | a :: rest =>
      let tail := find_entity_usage_in_automations entity_id rest
      match a.raw_config with
      | some kvs =>
          let all_locations := extract_entity_locations (ConfigNode.obj kvs) "" []
          if hasKeyL all_locations entity_id then
            AutomationHit.mk (dictGetD kvs "id" (ConfigNode.str a.entity_id))
              (dictGetD kvs "alias" (ConfigNode.str (nameOr a.name a.entity_id)))
              a.entity_id (lookupList all_locations entity_id) :: tail
          else tail
      | none => tail

/-- `find_entity_usage_in_scripts`; the owner id drops the entity-id domain
(`script.my_script` becomes `my_script`). -/
def find_entity_usage_in_scripts (entity_id : String) :
    List ScriptEnt → List ScriptHit
  | [] => []
  | s :: rest =>
      let tail := find_entity_usage_in_scripts entity_id rest
      match s.raw_config with
      | some kvs =>
          let all_locations := extract_entity_locations (ConfigNode.obj kvs) "" []
          if hasKeyL all_locations entity_id then
            let script_id := idAfterDot s.entity_id
            ScriptHit.mk (dictGetD kvs "id" (ConfigNode.str script_id))
              (dictGetD kvs "alias" (ConfigNode.str (nameOr s.name script_id)))
              s.entity_id (lookupList all_locations entity_id) :: tail
          else tail
      | none => tail

/-- `config.get("entities", {})` viewed as a dict (scene entity maps are
dicts; any other shape has no keys). -/
def sceneEntitiesDict (kvs : List (String × ConfigNode)) : List (String × ConfigNode) :=
  match dictGet kvs "entities" with
  | some (.obj es) => es
  | _ => []

/-- `find_entity_usage_in_scenes`: direct membership test against the scene's
`entities` dict; the single synthetic location is `"entities"`. -/
def find_entity_usage_in_scenes (entity_id : String) :
    List SceneEnt → List SceneHit
  | [] => []
  | sc :: rest =>
      let tail := find_entity_usage_in_scenes entity_id rest
      match sc.config with
      | some kvs =>
          if (sceneEntitiesDict kvs).any (fun kv => kv.1 == entity_id) then
            let scene_id := idAfterDot sc.entity_id
            SceneHit.mk (dictGetD kvs "id" (ConfigNode.str scene_id))
              (dictGetD kvs "name" (ConfigNode.str (nameOr sc.name scene_id)))
              sc.entity_id ["entities"] :: tail
          else tail
      | none => tail

/-- `find_entity_usage` (validation.py lines 444-479): run the four finders,
sum `len(locations)` over each collection, and assemble the report with
exactly the fields `entity_id`, `usage` (its four named collections) and
`total_references`. -/
def find_entity_usage (entity_id : String) (dashboards : List Dashboard)
    (automations : List AutomationEnt) (scripts : List ScriptEnt)
    (scenes : List SceneEnt) : UsageReport :=
  let d := find_entity_usage_in_dashboards entity_id dashboards
  let a := find_entity_usage_in_automations entity_id automations
  let s := find_entity_usage_in_scripts entity_id scripts
  let sc := find_entity_usage_in_scenes entity_id scenes
  let total :=
    (d.map (fun x => x.locations.length)).sum +
    (a.map (fun x => x.locations.length)).sum +
    (s.map (fun x => x.locations.length)).sum +
    (sc.map (fun x => x.locations.length)).sum
  UsageReport.mk entity_id (Usage.mk d a s sc) total


/-! ## Basic lemmas about the accumulator primitives -/

theorem mem_addRef {acc : List String} {s e : String} :
    e ∈ addRef acc s ↔ e ∈ acc ∨ e = s := by
  simp only [addRef]
  split
  · rename_i h
    have h' : s ∈ acc := by simpa using h
    constructor
    · exact Or.inl
    · rintro (hh | rfl) <;> [exact hh; exact h']
  · simp

theorem nodup_addRef {acc : List String} {s : String} (h : acc.Nodup) :
    (addRef acc s).Nodup := by
  simp only [addRef]
  split
  · exact h
  · rename_i hc
    have hs : s ∉ acc := fun hmem => hc (by simpa using hmem)
    simp [List.nodup_append, h, hs]

theorem is_entity_id_eq {v : ConfigNode} (hv : is_entity_id v = true) :
    ∃ s, v = ConfigNode.str s ∧ isEntityId s = true := by
  cases v <;> simp_all [is_entity_id]

theorem keysOf_add_location {l : Locations} {s p e : String} :
    e ∈ keysOf (add_location l s p) ↔ e ∈ keysOf l ∨ e = s := by
  induction l with
  | nil => simp [add_location, keysOf]
  | cons kv rest ih =>
      obtain ⟨k, ps⟩ := kv
      simp only [add_location]
      split
      · rename_i hk
        rw [beq_iff_eq] at hk
        subst hk
        simp only [keysOf, List.map_cons, List.mem_cons]
        tauto
      · simp only [keysOf, List.map_cons, List.mem_cons] at ih ⊢
        rw [ih]
        tauto

theorem lookupList_add_location_self (l : Locations) (s p : String) :
    lookupList (add_location l s p) s = lookupList l s ++ [p] := by
  induction l with
  | nil => simp [add_location, lookupList]
  | cons kv rest ih =>
      obtain ⟨k, ps⟩ := kv
      simp only [add_location]
      split
      · rename_i hk
        simp only [lookupList, if_pos hk]
      · rename_i hk
        simp only [lookupList, if_neg hk]
        exact ih

theorem lookupList_add_location_ne {s e : String} (l : Locations) (p : String)
    (h : e ≠ s) : lookupList (add_location l s p) e = lookupList l e := by
  have hne : ∀ ps ps' : List String,
      ¬((s == e) = true) := fun _ _ hh => h ((beq_iff_eq.mp hh).symm)
  induction l with
  | nil =>
      simp only [add_location, lookupList, if_neg (hne [] [])]
  | cons kv rest ih =>
      obtain ⟨k, ps⟩ := kv
      simp only [add_location]
      split
      · rename_i hk
        rw [beq_iff_eq] at hk
        subst hk
        simp only [lookupList, if_neg (hne [] [])]
      · simp only [lookupList]
        split
        · rfl
        · exact ih

theorem lookupList_add_location_extend (l : Locations) (s p e : String) :
    ∃ t, lookupList (add_location l s p) e = lookupList l e ++ t := by
  by_cases h : e = s
  · subst h
    exact ⟨[p], lookupList_add_location_self l e p⟩
  · exact ⟨[], by simp [lookupList_add_location_ne l p h]⟩

theorem hasKeyL_iff {l : Locations} {e : String} :
    hasKeyL l e = true ↔ e ∈ keysOf l := by
  induction l with
  | nil => simp [hasKeyL, keysOf]
  | cons kv rest ih =>
      obtain ⟨k, ps⟩ := kv
      simp only [hasKeyL, List.any_cons, Bool.or_eq_true, beq_iff_eq, keysOf,
        List.map_cons, List.mem_cons] at ih ⊢
      rw [ih]
      constructor <;> rintro (h | h) <;> simp [h]


/-! ## Master preservation lemmas

Every site where `extract_entity_references` adds to its set is guarded by
`_is_entity_id`, and likewise every `add_location` call in
`extract_entity_locations`.  Hence any accumulator predicate preserved by a
guarded add is an invariant of the whole traversal. -/

theorem addValue_preserve (P : List String → Prop)
    (hadd : ∀ acc s, P acc → isEntityId s = true → P (addRef acc s))
    {v : ConfigNode} (acc : List String) (h : P acc) (hv : is_entity_id v = true) :
    P (addValue acc v) := by
  obtain ⟨s, rfl, hs⟩ := is_entity_id_eq hv
  exact hadd acc s h hs

theorem targetListRefs_preserve (P : List String → Prop)
    (hadd : ∀ acc s, P acc → isEntityId s = true → P (addRef acc s)) :
    ∀ (xs : List ConfigNode) (acc : List String), P acc → P (targetListRefs xs acc)
  | [], _, h => h
  | x :: rest, acc, h => by
      rw [targetListRefs]
      refine targetListRefs_preserve P hadd rest _ ?_
      split
      · exact addValue_preserve P hadd acc h (by assumption)
      · exact h

theorem targetRefs_preserve (P : List String → Prop)
    (hadd : ∀ acc s, P acc → isEntityId s = true → P (addRef acc s))
    (kvs : List (String × ConfigNode)) (acc : List String) (h : P acc) :
    P (targetRefs kvs acc) := by
  rw [targetRefs]
  split
  · split
    · exact hadd acc _ h (by assumption)
    · exact h
  · exact targetListRefs_preserve P hadd _ acc h
  · exact h

mutual

theorem refs_preserve (P : List String → Prop)
    (hadd : ∀ acc s, P acc → isEntityId s = true → P (addRef acc s)) :
    ∀ (c : ConfigNode) (acc : List String), P acc → P (extract_entity_references c acc)
  | .obj entries, acc, h => refsObj_preserve P hadd entries acc h
  | .list xs, acc, h => refsList_preserve P hadd xs acc h
  | .str _, _, h => h
  | .num _, _, h => h
  | .bool _, _, h => h
  | .null, _, h => h

theorem refsObj_preserve (P : List String → Prop)
    (hadd : ∀ acc s, P acc → isEntityId s = true → P (addRef acc s)) :
    ∀ (entries : List (String × ConfigNode)) (acc : List String), P acc → P (refsObj entries acc)
  | [], _, h => h
  | (key, value) :: rest, acc, h => by
      cases value <;>
        (rw [refsObj] <;> try exact fun _ heq => ConfigNode.noConfusion heq) <;>
        refine refsObj_preserve P hadd rest _ ?_
      case str s =>
        split
        · rename_i hv
          exact addValue_preserve P hadd acc h (Bool.and_elim_right hv)
        · exact h
      case num => split
                  · rename_i hv; exact absurd hv (by simp [is_entity_id])
                  · exact h
      case bool => split
                   · rename_i hv; exact absurd hv (by simp [is_entity_id])
                   · exact h
      case null => split
                   · rename_i hv; exact absurd hv (by simp [is_entity_id])
                   · exact h
      case obj kvs =>
        split
        · rename_i hv; exact absurd hv (by simp [is_entity_id])
        · split
          · exact targetRefs_preserve P hadd _ acc h
          · exact refsObj_preserve P hadd _ acc h
      case list xs =>
        split
        · rename_i hv; exact absurd hv (by simp [is_entity_id])
        · split
          · exact refsEntityList_preserve P hadd _ acc h
          · exact refsList_preserve P hadd _ acc h

theorem refsEntityList_preserve (P : List String → Prop)
    (hadd : ∀ acc s, P acc → isEntityId s = true → P (addRef acc s)) :
    ∀ (xs : List ConfigNode) (acc : List String), P acc → P (refsEntityList xs acc)
  | [], _, h => h
  | item :: rest, acc, h => by
      cases item <;>
        (rw [refsEntityList] <;> try exact fun _ heq => ConfigNode.noConfusion heq) <;>
        refine refsEntityList_preserve P hadd rest _ ?_
      case str s =>
        split
        · exact addValue_preserve P hadd acc h (by assumption)
        · exact h
      case num => exact h
      case bool => exact h
      case null => exact h
      case list => exact h
      case obj kvs =>
        refine refs_preserve P hadd _ _ ?_
        split
        · split
          · exact addValue_preserve P hadd acc h (by assumption)
          · exact h
        · exact h

theorem refsList_preserve (P : List String → Prop)
    (hadd : ∀ acc s, P acc → isEntityId s = true → P (addRef acc s)) :
    ∀ (xs : List ConfigNode) (acc : List String), P acc → P (refsList xs acc)
  | [], _, h => h
  | x :: rest, acc, h =>
      refsList_preserve P hadd rest _ (refs_preserve P hadd x acc h)

end

theorem addValueLoc_preserve (P : Locations → Prop)
    (hadd : ∀ l s p, P l → isEntityId s = true → P (add_location l s p))
    {v : ConfigNode} (l : Locations) (path : String) (h : P l)
    (hv : is_entity_id v = true) : P (addValueLoc l v path) := by
  obtain ⟨s, rfl, hs⟩ := is_entity_id_eq hv
  exact hadd l s path h hs

theorem entityKeysPass_preserve (P : Locations → Prop)
    (hadd : ∀ l s p, P l → isEntityId s = true → P (add_location l s p)) :
    ∀ (entries : List (String × ConfigNode)) (p : String) (l : Locations),
      P l → P (entityKeysPass entries p l)
  | [], _, _, h => h
  | (k, _) :: rest, p, l, h => by
      rw [entityKeysPass]
      refine entityKeysPass_preserve P hadd rest p _ ?_
      split
      · exact hadd l k p h (by assumption)
      · exact h

theorem targetListLocs_preserve (P : Locations → Prop)
    (hadd : ∀ l s p, P l → isEntityId s = true → P (add_location l s p)) :
    ∀ (xs : List ConfigNode) (tp : String) (idx : Nat) (l : Locations),
      P l → P (targetListLocs xs tp idx l)
  | [], _, _, _, h => h
  | x :: rest, tp, idx, l, h => by
      cases x <;>
        (rw [targetListLocs] <;> try exact fun _ heq => ConfigNode.noConfusion heq) <;>
        refine targetListLocs_preserve P hadd rest tp (idx + 1) _ ?_
      case str s =>
        split
        · exact hadd l _ _ h (by assumption)
        · exact h
      case num => exact h
      case bool => exact h
      case null => exact h
      case obj => exact h
      case list => exact h

theorem targetLocs_preserve (P : Locations → Prop)
    (hadd : ∀ l s p, P l → isEntityId s = true → P (add_location l s p))
    (kvs : List (String × ConfigNode)) (cp : String) (l : Locations) (h : P l) :
    P (targetLocs kvs cp l) := by
  rw [targetLocs]
  split
  · split
    · exact hadd l _ _ h (by assumption)
    · exact h
  · exact targetListLocs_preserve P hadd _ _ 0 l h
  · exact h

mutual

theorem locs_preserve (P : Locations → Prop)
    (hadd : ∀ l s p, P l → isEntityId s = true → P (add_location l s p)) :
    ∀ (c : ConfigNode) (cp : String) (l : Locations),
      P l → P (extract_entity_locations c cp l)
  | .obj entries, cp, l, h => by
      rw [extract_entity_locations]
      refine locsObj_preserve P hadd entries cp _ ?_
      split
      · exact entityKeysPass_preserve P hadd entries cp l h
      · exact h
  | .list xs, cp, l, h => by
      rw [extract_entity_locations]
      exact locsList_preserve P hadd xs cp 0 l h
  | .str _, _, _, h => h
  | .num _, _, _, h => h
  | .bool _, _, _, h => h
  | .null, _, _, h => h

theorem locsObj_preserve (P : Locations → Prop)
    (hadd : ∀ l s p, P l → isEntityId s = true → P (add_location l s p)) :
    ∀ (entries : List (String × ConfigNode)) (cp : String) (l : Locations),
      P l → P (locsObj entries cp l)
  | [], _, _, h => h
  | (key, value) :: rest, cp, l, h => by
      cases value <;>
        (rw [locsObj] <;> try exact fun _ heq => ConfigNode.noConfusion heq) <;>
        refine locsObj_preserve P hadd rest cp _ ?_
      case str s =>
        split
        · rename_i hv
          exact addValueLoc_preserve P hadd l _ h (Bool.and_elim_right hv)
        · exact h
      case num => split
                  · rename_i hv; exact absurd hv (by simp [is_entity_id])
                  · exact h
      case bool => split
                   · rename_i hv; exact absurd hv (by simp [is_entity_id])
                   · exact h
      case null => split
                   · rename_i hv; exact absurd hv (by simp [is_entity_id])
                   · exact h
      case obj kvs =>
        split
        · rename_i hv; exact absurd hv (by simp [is_entity_id])
        · split
          · exact targetLocs_preserve P hadd _ _ l h
          · exact locs_preserve P hadd _ _ l h
      case list xs =>
        split
        · rename_i hv; exact absurd hv (by simp [is_entity_id])
        · split
          · exact locsEntityList_preserve P hadd _ _ 0 l h
          · exact locsList_preserve P hadd _ _ 0 l h

theorem locsEntityList_preserve (P : Locations → Prop)
    (hadd : ∀ l s p, P l → isEntityId s = true → P (add_location l s p)) :
    ∀ (xs : List ConfigNode) (cp : String) (idx : Nat) (l : Locations),
      P l → P (locsEntityList xs cp idx l)
  | [], _, _, _, h => h
  | item :: rest, cp, idx, l, h => by
      cases item <;>
        (rw [locsEntityList] <;> try exact fun _ heq => ConfigNode.noConfusion heq) <;>
        refine locsEntityList_preserve P hadd rest cp (idx + 1) _ ?_
      case str s =>
        split
        · exact addValueLoc_preserve P hadd l _ h (by assumption)
        · exact h
      case num => exact h
      case bool => exact h
      case null => exact h
      case list => exact h
      case obj kvs =>
        refine locs_preserve P hadd _ _ _ ?_
        split
        · split
          · exact addValueLoc_preserve P hadd l _ h (by assumption)
          · exact h
        · exact h

theorem locsList_preserve (P : Locations → Prop)
    (hadd : ∀ l s p, P l → isEntityId s = true → P (add_location l s p)) :
    ∀ (xs : List ConfigNode) (cp : String) (idx : Nat) (l : Locations),
      P l → P (locsList xs cp idx l)
  | [], _, _, _, h => h
  | x :: rest, cp, idx, l, h =>
      locsList_preserve P hadd rest cp (idx + 1) _
        (locs_preserve P hadd x _ l h)

end


/-! ## Well-formedness of the outputs (claim C10) -/

theorem add_location_wf {l : Locations} {s p : String}
    (h : ∀ kv ∈ l, isEntityId kv.1 = true ∧ kv.2 ≠ [])
    (hs : isEntityId s = true) :
    ∀ kv ∈ add_location l s p, isEntityId kv.1 = true ∧ kv.2 ≠ [] := by
  induction l with
  | nil =>
      intro kv hkv
      simp only [add_location, List.mem_singleton] at hkv
      subst hkv
      exact ⟨hs, by simp⟩
  | cons kv0 rest ih =>
      obtain ⟨k, ps⟩ := kv0
      simp only [add_location]
      split
      · intro kv hkv
        rcases List.mem_cons.mp hkv with rfl | hkv
        · exact ⟨(h (k, ps) (by simp)).1, by simp⟩
        · exact h kv (List.mem_cons_of_mem _ hkv)
      · intro kv hkv
        rcases List.mem_cons.mp hkv with rfl | hkv
        · exact h (k, ps) (by simp)
        · exact ih (fun kv' hkv' => h kv' (List.mem_cons_of_mem _ hkv')) kv hkv

/-- Claim C10: every element of the reference set and every key of the
location map matches the entity-id pattern, and every recorded path list is
non-empty. -/
theorem C10_outputs_wellformed (c : ConfigNode) :
    (∀ e ∈ extract_entity_references c [], isEntityId e = true) ∧
    (∀ kv ∈ extract_entity_locations c "" [], isEntityId kv.1 = true ∧ kv.2 ≠ []) := by
  constructor
  · exact refs_preserve (fun acc => ∀ e ∈ acc, isEntityId e = true)
      (fun acc s hacc hs e he => by
        rcases mem_addRef.mp he with h | rfl
        · exact hacc e h
        · exact hs) c [] (by simp)
  · exact locs_preserve (fun l => ∀ kv ∈ l, isEntityId kv.1 = true ∧ kv.2 ≠ [])
      (fun l s p hl hs => add_location_wf hl hs) c "" [] (by simp)

theorem C10_outputs_wellformed_witness :
    isEntityId "light.kitchen" = true ∧
    ("light.kitchen", ["entity"]).2 ≠ ([] : List String) := by
  have h := C10_outputs_wellformed (ConfigNode.obj [("entity", ConfigNode.str "light.kitchen")])
  exact ⟨h.1 "light.kitchen" (by decide),
    (h.2 ("light.kitchen", ["entity"]) (by decide)).2⟩

/-! ## The usage report (claim C4) -/

/-- The sum of `len(locations)` over every entry in every collection of a
usage object, phrased over the flattened list of all location lists. -/
def usageTotal (u : Usage) : Nat :=
  ((u.dashboards.map DashboardHit.locations ++ u.automations.map AutomationHit.locations ++
    u.scripts.map ScriptHit.locations ++ u.scenes.map SceneHit.locations).map
    List.length).sum

/-- Claim C4: `total_references` is the sum of the lengths of the `locations`
lists over every entry in all four collections of `usage`, and the report
carries the requested entity id.  (That the report consists of exactly the
fields `entity_id`, `usage` with its four named collections, and
`total_references` is expressed by the types `UsageReport` and `Usage`.) -/
theorem C4_total_references (eid : String) (dashboards : List Dashboard)
    (automations : List AutomationEnt) (scripts : List ScriptEnt)
    (scenes : List SceneEnt) :
    (find_entity_usage eid dashboards automations scripts scenes).total_references =
      usageTotal (find_entity_usage eid dashboards automations scripts scenes).usage ∧
    (find_entity_usage eid dashboards automations scripts scenes).entity_id = eid := by
  refine ⟨?_, rfl⟩
  simp [find_entity_usage, usageTotal, List.map_append, List.sum_append, List.map_map,
    Function.comp_def]
  omega

theorem C4_total_references_witness :
    (find_entity_usage "light.hall" [] [] [] []).total_references =
      usageTotal (find_entity_usage "light.hall" [] [] [] []).usage ∧
    (find_entity_usage "light.hall" [] [] [] []).entity_id = "light.hall" :=
  C4_total_references "light.hall" [] [] [] []

/-! ## `validate_dashboard_entities` (claim C3) -/

/-- Claim C3: the result is exactly `sorted(refs − existing)` — strictly
ascending (hence duplicate-free), containing an entity id iff it is referenced
and not existing. -/
theorem C3_validate_missing_sorted (existing : List String) (config : ConfigNode) :
    List.Sorted (fun a b : String => a < b)
      (validate_dashboard_entities existing config) ∧
    ∀ e, e ∈ validate_dashboard_entities existing config ↔
      (e ∈ extract_entity_references config [] ∧ e ∉ existing) := by
  have hnd : (extract_entity_references config []).Nodup :=
    refs_preserve List.Nodup (fun acc s h _ => nodup_addRef h) config [] List.nodup_nil
  have hsorted : List.Sorted (fun a b : String => a ≤ b)
      (List.insertionSort (fun a b => a ≤ b) (extract_entity_references config [])) :=
    List.sorted_insertionSort _ _
  have hnd2 : (List.insertionSort (fun a b => a ≤ b)
      (extract_entity_references config [])).Nodup :=
    ((List.perm_insertionSort _ _).nodup_iff).mpr hnd
  constructor
  · refine List.Pairwise.sublist (List.filter_sublist _) ?_
    exact (hsorted.and hnd2).imp (fun h => lt_of_le_of_ne h.1 h.2)
  · intro e
    simp only [validate_dashboard_entities, List.mem_filter, List.mem_insertionSort]
    constructor
    · rintro ⟨h1, h2⟩
      exact ⟨h1, by simpa using h2⟩
    · rintro ⟨h1, h2⟩
      exact ⟨h1, by simpa using h2⟩


/-! ## The reference set is contained in the location-map key set (claim C1)

`extract_entity_locations` mirrors every branch of `extract_entity_references`
and additionally records scene-style keys, so the traversals can be related
accumulator-wise. -/

theorem rel_weaken {accR : List String} {accL : Locations}
    (hrel : ∀ e ∈ accR, e ∈ keysOf accL) (s pth : String) :
    ∀ e ∈ accR, e ∈ keysOf (add_location accL s pth) :=
  fun e he => keysOf_add_location.mpr (Or.inl (hrel e he))

theorem rel_add {accR : List String} {accL : Locations}
    (hrel : ∀ e ∈ accR, e ∈ keysOf accL) (s pth : String) :
    ∀ e ∈ addRef accR s, e ∈ keysOf (add_location accL s pth) := by
  intro e he
  rcases mem_addRef.mp he with h | rfl
  · exact keysOf_add_location.mpr (Or.inl (hrel e h))
  · exact keysOf_add_location.mpr (Or.inr rfl)

/-- Key membership in the location accumulator is monotone along the
traversal. -/
theorem keys_mono_locs (e : String) (c : ConfigNode) (cp : String) (l : Locations)
    (h : e ∈ keysOf l) : e ∈ keysOf (extract_entity_locations c cp l) :=
  locs_preserve (fun l => e ∈ keysOf l)
    (fun _ _ _ hl _ => keysOf_add_location.mpr (Or.inl hl)) c cp l h

theorem keys_mono_entityKeysPass (e : String) (entries : List (String × ConfigNode))
    (p : String) (l : Locations) (h : e ∈ keysOf l) :
    e ∈ keysOf (entityKeysPass entries p l) :=
  entityKeysPass_preserve (fun l => e ∈ keysOf l)
    (fun _ _ _ hl _ => keysOf_add_location.mpr (Or.inl hl)) entries p l h

theorem targetListRefs_sub :
    ∀ (xs : List ConfigNode) (accR : List String) (tp : String) (idx : Nat)
      (accL : Locations), (∀ e ∈ accR, e ∈ keysOf accL) →
      ∀ e ∈ targetListRefs xs accR, e ∈ keysOf (targetListLocs xs tp idx accL)
  | [], _, _, _, _, hrel => hrel
  | x :: rest, accR, tp, idx, accL, hrel => by
      cases x <;>
        (rw [targetListRefs]) <;>
        (rw [targetListLocs] <;> try exact fun _ heq => ConfigNode.noConfusion heq) <;>
        refine targetListRefs_sub rest _ tp (idx + 1) _ ?_
      case str s =>
        split
        · rename_i hv
          have hs : isEntityId s = true := by simpa [is_entity_id] using hv
          rw [if_pos hs]
          simpa [addValue] using rel_add hrel s (tp ++ "[" ++ toString idx ++ "]")
        · rename_i hv
          have hs : ¬ (isEntityId s = true) := by simpa [is_entity_id] using hv
          rw [if_neg hs]
          exact hrel
      case num => exact hrel
      case bool => exact hrel
      case null => exact hrel
      case obj => exact hrel
      case list => exact hrel

theorem targetRefs_sub (kvs : List (String × ConfigNode)) (cp : String)
    (accR : List String) (accL : Locations)
    (hrel : ∀ e ∈ accR, e ∈ keysOf accL) :
    ∀ e ∈ targetRefs kvs accR, e ∈ keysOf (targetLocs kvs cp accL) := by
  rw [targetRefs, targetLocs]
  cases hdg : dictGet kvs "entity_id" with
  | none => simpa [hdg] using hrel
  | some v =>
      cases v <;> simp only [hdg]
      case str s =>
        split
        · exact rel_add hrel s _
        · exact hrel
      case num => exact hrel
      case bool => exact hrel
      case null => exact hrel
      case obj => exact hrel
      case list xs => exact targetListRefs_sub xs accR _ 0 accL hrel

mutual

theorem refs_sub_locs :
    ∀ (c : ConfigNode) (accR : List String) (cp : String) (accL : Locations),
      (∀ e ∈ accR, e ∈ keysOf accL) →
      ∀ e ∈ extract_entity_references c accR,
        e ∈ keysOf (extract_entity_locations c cp accL)
  | .obj entries, accR, cp, accL, hrel => by
      rw [extract_entity_references, extract_entity_locations]
      refine refsObj_sub entries accR cp _ ?_
      split
      · exact fun e he => keys_mono_entityKeysPass e entries cp accL (hrel e he)
      · exact hrel
  | .list xs, accR, cp, accL, hrel => by
      rw [extract_entity_references, extract_entity_locations]
      exact refsList_sub xs accR cp 0 accL hrel
  | .str _, _, _, _, hrel => hrel
  | .num _, _, _, _, hrel => hrel
  | .bool _, _, _, _, hrel => hrel
  | .null, _, _, _, hrel => hrel

theorem refsObj_sub :
    ∀ (entries : List (String × ConfigNode)) (accR : List String) (cp : String)
      (accL : Locations), (∀ e ∈ accR, e ∈ keysOf accL) →
      ∀ e ∈ refsObj entries accR, e ∈ keysOf (locsObj entries cp accL)
  | [], _, _, _, hrel => hrel
  | (key, value) :: rest, accR, cp, accL, hrel => by
      cases value <;>
        (rw [refsObj] <;> try exact fun _ heq => ConfigNode.noConfusion heq) <;>
        (rw [locsObj] <;> try exact fun _ heq => ConfigNode.noConfusion heq) <;>
        refine refsObj_sub rest _ cp _ ?_
      case str s =>
        split
        · exact rel_add hrel s _
        · exact hrel
      case num =>
        split
        · rename_i hv; exact absurd (Bool.and_elim_right hv) (by simp [is_entity_id])
        · exact hrel
      case bool =>
        split
        · rename_i hv; exact absurd (Bool.and_elim_right hv) (by simp [is_entity_id])
        · exact hrel
      case null =>
        split
        · rename_i hv; exact absurd (Bool.and_elim_right hv) (by simp [is_entity_id])
        · exact hrel
      case obj kvs =>
        split
        · rename_i hv; exact absurd (Bool.and_elim_right hv) (by simp [is_entity_id])
        · split
          · exact targetRefs_sub kvs _ accR accL hrel
          · exact refs_sub_locs (ConfigNode.obj kvs) accR _ accL hrel
      case list xs =>
        split
        · rename_i hv; exact absurd (Bool.and_elim_right hv) (by simp [is_entity_id])
        · split
          · exact refsEntityList_sub xs accR _ 0 accL hrel
          · exact refsList_sub xs accR _ 0 accL hrel

theorem refsEntityList_sub :
    ∀ (xs : List ConfigNode) (accR : List String) (cp : String) (idx : Nat)
      (accL : Locations), (∀ e ∈ accR, e ∈ keysOf accL) →
      ∀ e ∈ refsEntityList xs accR, e ∈ keysOf (locsEntityList xs cp idx accL)
  | [], _, _, _, _, hrel => hrel
  | item :: rest, accR, cp, idx, accL, hrel => by
      cases item <;>
        (rw [refsEntityList] <;> try exact fun _ heq => ConfigNode.noConfusion heq) <;>
        (rw [locsEntityList] <;> try exact fun _ heq => ConfigNode.noConfusion heq) <;>
        refine refsEntityList_sub rest _ cp (idx + 1) _ ?_
      case str s =>
        split
        · exact rel_add hrel s _
        · exact hrel
      case num => exact hrel
      case bool => exact hrel
      case null => exact hrel
      case list => exact hrel
      case obj kvs =>
        refine refs_sub_locs (ConfigNode.obj kvs) _ _ _ ?_
        cases hdg : dictGet kvs "entity" with
        | none => simpa [hdg] using hrel
        | some v =>
            cases v <;> simp only [hdg]
            case str s =>
              split
              · exact rel_add hrel s _
              · exact hrel
            case num => exact hrel
            case bool => exact hrel
            case null => exact hrel
            case obj => exact hrel
            case list => exact hrel

theorem refsList_sub :
    ∀ (xs : List ConfigNode) (accR : List String) (cp : String) (idx : Nat)
      (accL : Locations), (∀ e ∈ accR, e ∈ keysOf accL) →
      ∀ e ∈ refsList xs accR, e ∈ keysOf (locsList xs cp idx accL)
  | [], _, _, _, _, hrel => hrel
  | x :: rest, accR, cp, idx, accL, hrel =>
      refsList_sub rest _ cp (idx + 1) _ (refs_sub_locs x accR _ accL hrel)

end

/-- Claim C1, counterexample to the claimed set equality: for
`{"entities": {"light.x": "on"}}` the reference set is empty while the
location map has the key `light.x` (recorded by the scene-style rule, which
`extract_entity_references` does not implement). -/
theorem C1_equality_counterexample :
    extract_entity_references
      (ConfigNode.obj [("entities", ConfigNode.obj [("light.x", ConfigNode.str "on")])]) [] = [] ∧
    keysOf (extract_entity_locations
      (ConfigNode.obj [("entities", ConfigNode.obj [("light.x", ConfigNode.str "on")])]) "" []) =
      ["light.x"] := by
  exact ⟨by decide, by decide⟩

/-- Claim C1 (amended): for every configuration tree the reference set is a
subset of the location-map key set; the claimed converse inclusion (set
equality) is false, because the scene-style entity-keyed-map rule exists only
in `extract_entity_locations`. -/
theorem C1_references_subset_location_keys (c : ConfigNode) :
    ∀ e ∈ extract_entity_references c [],
      e ∈ keysOf (extract_entity_locations c "" []) :=
  refs_sub_locs c [] "" [] (by simp)

theorem C1_references_subset_location_keys_witness :
    "light.kitchen" ∈ keysOf (extract_entity_locations
      (ConfigNode.obj [("entity", ConfigNode.str "light.kitchen")]) "" []) :=
  C1_references_subset_location_keys
    (ConfigNode.obj [("entity", ConfigNode.str "light.kitchen")])
    "light.kitchen" (by decide)

/-! ## The target branch without `entity_id` (claim C2) -/

/-- Claim C2, counterexample: `{"target": {"entity": "light.x"}}` yields no
reference and no location at all — the target branch matches on
`isinstance(value, dict)` alone and never recurses into the target object, so
the nested `"entity": "light.x"` is dropped, contrary to the claim. -/
theorem C2_target_counterexample :
    extract_entity_references
      (ConfigNode.obj [("target", ConfigNode.obj [("entity", ConfigNode.str "light.x")])]) [] = [] ∧
    extract_entity_locations
      (ConfigNode.obj [("target", ConfigNode.obj [("entity", ConfigNode.str "light.x")])]) "" [] = [] := by
  exact ⟨by decide, by decide⟩

/-- Claim C2 (amended): an Object value under the key `target` matches the
target branch regardless of whether it has an `entity_id` field; when
`entity_id` is absent the branch contributes nothing and the value is NOT
recursed into generically, so entity references nested inside it are dropped
from both scanners. -/
theorem C2_target_without_entity_id_dropped (kvs : List (String × ConfigNode))
    (p : String) (accR : List String) (accL : Locations)
    (hmiss : dictGet kvs "entity_id" = none) :
    extract_entity_references (ConfigNode.obj [("target", ConfigNode.obj kvs)]) accR = accR ∧
    extract_entity_locations (ConfigNode.obj [("target", ConfigNode.obj kvs)]) p accL = accL := by
  constructor
  · rw [extract_entity_references, refsObj, refsObj]
    simp [targetRefs, hmiss, ENTITY_KEYS, is_entity_id]
  · rw [extract_entity_locations, locsObj, locsObj]
    have hpass : (if isEntitiesPath p then
        entityKeysPass [("target", ConfigNode.obj kvs)] p accL else accL) = accL := by
      split
      · rw [entityKeysPass, entityKeysPass]
        simp [show isEntityId "target" = false by decide]
      · rfl
    rw [hpass]
    simp [targetLocs, hmiss, ENTITY_KEYS, is_entity_id]

theorem C2_target_without_entity_id_dropped_witness :
    extract_entity_references
      (ConfigNode.obj [("target", ConfigNode.obj [("entity", ConfigNode.str "light.x")])]) [] = [] ∧
    extract_entity_locations
      (ConfigNode.obj [("target", ConfigNode.obj [("entity", ConfigNode.str "light.x")])]) "x" [] = [] :=
  C2_target_without_entity_id_dropped [("entity", ConfigNode.str "light.x")] "x" [] [] (by rfl)

/-! ## The target-block scenario (claim C8) -/

/-- Claim C8: `{"target": {"entity_id": ["light.a", "light.b"]}}` produces
exactly the references `light.a`, `light.b`, located at `target.entity_id[0]`
and `target.entity_id[1]` respectively, per the path-construction rule. -/
theorem C8_target_block_scenario :
    extract_entity_references
      (ConfigNode.obj [("target", ConfigNode.obj
        [("entity_id", ConfigNode.list [ConfigNode.str "light.a", ConfigNode.str "light.b"])])]) [] =
      ["light.a", "light.b"] ∧
    extract_entity_locations
      (ConfigNode.obj [("target", ConfigNode.obj
        [("entity_id", ConfigNode.list [ConfigNode.str "light.a", ConfigNode.str "light.b"])])]) "" [] =
      [("light.a", ["target.entity_id[0]"]), ("light.b", ["target.entity_id[1]"])] := by
  exact ⟨by decide, by decide⟩


/-! ## Monotonicity of recorded locations (for claims C7 and C9) -/

theorem mem_lookup_add {l : Locations} {e pth : String} (s p' : String)
    (h : pth ∈ lookupList l e) : pth ∈ lookupList (add_location l s p') e := by
  obtain ⟨t, ht⟩ := lookupList_add_location_extend l s p' e
  rw [ht]
  exact List.mem_append_left _ h

theorem mem_lookup_mono_locs (pth e : String) (c : ConfigNode) (cp : String)
    (l : Locations) (h : pth ∈ lookupList l e) :
    pth ∈ lookupList (extract_entity_locations c cp l) e :=
  locs_preserve (fun l => pth ∈ lookupList l e)
    (fun _ s p hl _ => mem_lookup_add s p hl) c cp l h

theorem mem_lookup_mono_locsObj (pth e : String)
    (entries : List (String × ConfigNode)) (cp : String) (l : Locations)
    (h : pth ∈ lookupList l e) : pth ∈ lookupList (locsObj entries cp l) e :=
  locsObj_preserve (fun l => pth ∈ lookupList l e)
    (fun _ s p hl _ => mem_lookup_add s p hl) entries cp l h

theorem mem_lookup_entityKeysPass :
    ∀ (entries : List (String × ConfigNode)) (p : String) (acc : Locations)
      (k : String) (v : ConfigNode), (k, v) ∈ entries → isEntityId k = true →
      p ∈ lookupList (entityKeysPass entries p acc) k
  | [], _, _, _, _, hmem, _ => absurd hmem (List.not_mem_nil _)
  | (k0, v0) :: rest, p, acc, k, v, hmem, hk => by
      rw [entityKeysPass]
      rcases List.mem_cons.mp hmem with heq | hmem'
      · obtain ⟨rfl, rfl⟩ := Prod.mk.injEq .. ▸ heq
        rw [if_pos hk]
        refine entityKeysPass_preserve (fun l => p ∈ lookupList l k)
          (fun _ s p' hl _ => mem_lookup_add s p' hl) rest p _ ?_
        show p ∈ lookupList (add_location acc k p) k
        rw [lookupList_add_location_self]
        exact List.mem_append_right _ (by simp)
      · exact mem_lookup_entityKeysPass rest p _ k v hmem' hk

/-- Claim C7: when an Object sits at a traversal path ending in `entities`,
every key of it matching the entity-id pattern is recorded with the parent
Object's own path (the current path, not a per-key path); in the scenario
from the specification both location lists are exactly `["entities"]` (the
keys' values are not scanned by this rule). -/
theorem C7_entities_path_records_parent_path (p : String)
    (entries : List (String × ConfigNode)) (acc : Locations) (k : String)
    (v : ConfigNode) (hp : isEntitiesPath p = true) (hmem : (k, v) ∈ entries)
    (hk : isEntityId k = true) :
    p ∈ lookupList (extract_entity_locations (ConfigNode.obj entries) p acc) k ∧
    extract_entity_locations
      (ConfigNode.obj [("light.x", ConfigNode.obj [("state", ConfigNode.str "on")]),
        ("switch.y", ConfigNode.str "off")]) "entities" [] =
      [("light.x", ["entities"]), ("switch.y", ["entities"])] := by
  refine ⟨?_, by decide⟩
  rw [extract_entity_locations, if_pos hp]
  exact mem_lookup_mono_locsObj p k entries p _
    (mem_lookup_entityKeysPass entries p acc k v hmem hk)

theorem C7_entities_path_records_parent_path_witness :
    "entities" ∈ lookupList (extract_entity_locations
      (ConfigNode.obj [("light.x", ConfigNode.obj [("state", ConfigNode.str "on")]),
        ("switch.y", ConfigNode.str "off")]) "entities" []) "light.x" :=
  (C7_entities_path_records_parent_path "entities"
    [("light.x", ConfigNode.obj [("state", ConfigNode.str "on")]),
      ("switch.y", ConfigNode.str "off")] [] "light.x"
    (ConfigNode.obj [("state", ConfigNode.str "on")])
    (by decide) (List.mem_cons_self _ _) (by decide)).1


/-! ## Duplicate recording in entity lists (claim C9) -/

theorem count_lookup_add_self (l : Locations) (s p : String) :
    ((lookupList (add_location l s p) s).count p) = (lookupList l s).count p + 1 := by
  rw [lookupList_add_location_self]
  simp

theorem count_lookup_add_mono {n : Nat} {l : Locations} {s pth : String}
    (s' p' : String) (h : n ≤ (lookupList l s).count pth) :
    n ≤ (lookupList (add_location l s' p') s).count pth := by
  obtain ⟨t, ht⟩ := lookupList_add_location_extend l s' p' s
  rw [ht, List.count_append]
  omega

theorem count_mono_locs (n : Nat) (s pth : String) (c : ConfigNode) (cp : String)
    (l : Locations) (h : n ≤ (lookupList l s).count pth) :
    n ≤ (lookupList (extract_entity_locations c cp l) s).count pth :=
  locs_preserve (fun l => n ≤ (lookupList l s).count pth)
    (fun _ s' p' hl _ => count_lookup_add_mono s' p' hl) c cp l h

theorem count_mono_locsObj (n : Nat) (s pth : String)
    (entries : List (String × ConfigNode)) (cp : String) (l : Locations)
    (h : n ≤ (lookupList l s).count pth) :
    n ≤ (lookupList (locsObj entries cp l) s).count pth :=
  locsObj_preserve (fun l => n ≤ (lookupList l s).count pth)
    (fun _ s' p' hl _ => count_lookup_add_mono s' p' hl) entries cp l h

theorem count_mono_locsEntityList (n : Nat) (s pth : String)
    (xs : List ConfigNode) (cp : String) (idx : Nat) (l : Locations)
    (h : n ≤ (lookupList l s).count pth) :
    n ≤ (lookupList (locsEntityList xs cp idx l) s).count pth :=
  locsEntityList_preserve (fun l => n ≤ (lookupList l s).count pth)
    (fun _ s' p' hl _ => count_lookup_add_mono s' p' hl) xs cp idx l h

theorem count_mono_locsList (n : Nat) (s pth : String)
    (xs : List ConfigNode) (cp : String) (idx : Nat) (l : Locations)
    (h : n ≤ (lookupList l s).count pth) :
    n ≤ (lookupList (locsList xs cp idx l) s).count pth :=
  locsList_preserve (fun l => n ≤ (lookupList l s).count pth)
    (fun _ s' p' hl _ => count_lookup_add_mono s' p' hl) xs cp idx l h

theorem count_mono_targetLocs (n : Nat) (s pth : String)
    (kvs : List (String × ConfigNode)) (cp : String) (l : Locations)
    (h : n ≤ (lookupList l s).count pth) :
    n ≤ (lookupList (targetLocs kvs cp l) s).count pth :=
  targetLocs_preserve (fun l => n ≤ (lookupList l s).count pth)
    (fun _ s' p' hl _ => count_lookup_add_mono s' p' hl) kvs cp l h

theorem count_mono_entityKeysPass (n : Nat) (s pth : String)
    (entries : List (String × ConfigNode)) (p : String) (l : Locations)
    (h : n ≤ (lookupList l s).count pth) :
    n ≤ (lookupList (entityKeysPass entries p l) s).count pth :=
  entityKeysPass_preserve (fun l => n ≤ (lookupList l s).count pth)
    (fun _ s' p' hl _ => count_lookup_add_mono s' p' hl) entries p l h

/-- A direct-key hit inside an object strictly increases the count of the
per-key path in the entity's location list. -/
theorem locsObj_hit_count :
    ∀ (kvs : List (String × ConfigNode)) (cp : String) (l : Locations)
      (key s : String) (n : Nat), (key, ConfigNode.str s) ∈ kvs →
      ENTITY_KEYS.contains key = true → isEntityId s = true →
      n ≤ (lookupList l s).count (childPath cp key) →
      n + 1 ≤ (lookupList (locsObj kvs cp l) s).count (childPath cp key)
  | [], _, _, _, _, _, hmem, _, _, _ => absurd hmem (List.not_mem_nil _)
  | (k0, v0) :: rest, cp, l, key, s, n, hmem, hkey, hs, hcount => by
      rcases List.mem_cons.mp hmem with heq | hmem'
      · obtain ⟨rfl, rfl⟩ := Prod.mk.injEq .. ▸ heq
        rw [locsObj] <;> try exact fun _ heq => ConfigNode.noConfusion heq
        rw [if_pos (by rw [Bool.and_eq_true]
                       exact ⟨hkey, by simpa [is_entity_id] using hs⟩)]
        refine count_mono_locsObj (n + 1) s (childPath cp key) rest cp _ ?_
        show n + 1 ≤ (lookupList (add_location l s (childPath cp key)) s).count (childPath cp key)
        rw [count_lookup_add_self]
        omega
      · cases v0 <;>
          (rw [locsObj] <;> try exact fun _ heq => ConfigNode.noConfusion heq) <;>
          refine locsObj_hit_count rest cp _ key s n hmem' hkey hs ?_
        case str s0 =>
          split
          · exact count_lookup_add_mono _ _ hcount
          · exact hcount
        case num => split
                    · rename_i hv
                      exact absurd (Bool.and_elim_right hv) (by simp [is_entity_id])
                    · exact hcount
        case bool => split
                     · rename_i hv
                       exact absurd (Bool.and_elim_right hv) (by simp [is_entity_id])
                     · exact hcount
        case null => split
                     · rename_i hv
                       exact absurd (Bool.and_elim_right hv) (by simp [is_entity_id])
                     · exact hcount
        case obj kvs0 =>
          split
          · rename_i hv
            exact absurd (Bool.and_elim_right hv) (by simp [is_entity_id])
          · split
            · exact count_mono_targetLocs n s _ kvs0 _ l hcount
            · exact count_mono_locs n s _ _ _ l hcount
        case list xs0 =>
          split
          · rename_i hv
            exact absurd (Bool.and_elim_right hv) (by simp [is_entity_id])
          · split
            · exact count_mono_locsEntityList n s _ xs0 _ 0 l hcount
            · exact count_mono_locsList n s _ xs0 _ 0 l hcount

/-- Splitting the traversal of an entity list. -/
theorem locsEntityList_append :
    ∀ (a b : List ConfigNode) (cp : String) (idx : Nat) (l : Locations),
      locsEntityList (a ++ b) cp idx l =
        locsEntityList b cp (idx + a.length) (locsEntityList a cp idx l)
  | [], b, cp, idx, l => by simp [locsEntityList]
  | x :: rest, b, cp, idx, l => by
      have h1 : (idx + 1) + rest.length = idx + (rest.length + 1) := by omega
      cases x <;>
        simp only [List.cons_append, locsEntityList, List.length_cons, List.append_eq] <;>
        rw [locsEntityList_append rest b cp (idx + 1), h1]

/-- The bracketed list-element paths are never empty. -/
theorem bracket_path_ne_empty (q r : String) : ¬ ((q ++ "[" ++ r ++ "]") = "") := by
  intro h
  have hd := congrArg String.data h
  simp [String.data_append] at hd

theorem childPath_of_ne_empty {q : String} (hq : ¬ (q = "")) (k : String) :
    childPath q k = q ++ "." ++ k := by
  rw [childPath, if_neg (by simpa using hq)]


theorem dictGet_mem :
    ∀ {kvs : List (String × ConfigNode)} {key : String} {v : ConfigNode},
      dictGet kvs key = some v → (key, v) ∈ kvs
  | [], _, _, h => by simp [dictGet] at h
  | (k0, v0) :: rest, key, v, h => by
      rw [dictGet] at h
      split at h
      · rename_i hk
        rw [beq_iff_eq] at hk
        subst hk
        obtain rfl := Option.some.injEq .. ▸ h
        exact List.mem_cons_self _ _
      · exact List.mem_cons_of_mem _ (dictGet_mem h)

/-- Claim C9: an Object element of an `ENTITY_LIST_KEYS` list whose `entity`
key holds a valid entity id gets the same path `<listpath>[i].entity` recorded
twice — once by the list-element rule and once more by the generic recursion
into the element hitting the `entity` direct key — so the occurrence
contributes two entries to the location list, and `find_entity_usage` counts
it twice in `total_references` (concrete instance: the scenario dashboard). -/
theorem C9_entity_list_double_count (k s p : String) (xs1 xs2 : List ConfigNode)
    (kvs : List (String × ConfigNode)) (acc : Locations)
    (hk : ENTITY_LIST_KEYS.contains k = true)
    (hget : dictGet kvs "entity" = some (ConfigNode.str s))
    (hs : isEntityId s = true) :
    2 ≤ (lookupList (extract_entity_locations
        (ConfigNode.obj [(k, ConfigNode.list (xs1 ++ ConfigNode.obj kvs :: xs2))]) p acc) s).count
        (childPath p k ++ "[" ++ toString xs1.length ++ "]" ++ ".entity") ∧
    extract_entity_locations
      (ConfigNode.obj [("entities",
        ConfigNode.list [ConfigNode.obj [("entity", ConfigNode.str "light.hall")]])]) "" [] =
      [("light.hall", ["entities[0].entity", "entities[0].entity"])] ∧
    (find_entity_usage "light.hall"
      [Dashboard.mk "main" "Main" (some (ConfigNode.obj [("entities",
        ConfigNode.list [ConfigNode.obj [("entity", ConfigNode.str "light.hall")]])]))]
      [] [] []).total_references = 2 := by
  refine ⟨?_, by decide, by decide⟩
  have hkcase : k = "entities" ∨ k = "state_filter" := by
    simpa [ENTITY_LIST_KEYS] using hk
  have hkid : isEntityId k = false := by
    rcases hkcase with rfl | rfl <;> decide
  have hEK : ENTITY_KEYS.contains k = false := by
    rcases hkcase with rfl | rfl <;> decide
  have hktarget : (k == "target") = false := by
    rcases hkcase with rfl | rfl <;> decide
  rw [extract_entity_locations]
  have hpass : (if isEntitiesPath p then
      entityKeysPass [(k, ConfigNode.list (xs1 ++ ConfigNode.obj kvs :: xs2))] p acc
      else acc) = acc := by
    split
    · rw [entityKeysPass, if_neg (by simp [hkid]), entityKeysPass]
    · rfl
  rw [hpass]
  rw [locsObj] <;> try exact fun _ heq => ConfigNode.noConfusion heq
  rw [if_neg (by rw [hEK]; simp), if_pos hk, locsObj]
  rw [locsEntityList_append xs1 _ _ 0]
  simp only [Nat.zero_add]
  rw [locsEntityList] <;> try exact fun _ heq => ConfigNode.noConfusion heq
  rw [if_neg (by simp [is_entity_id]), hget]
  simp only [is_entity_id, hs, if_pos]
  simp only [addValueLoc]
  refine count_mono_locsEntityList 2 s _ xs2 _ (xs1.length + 1) _ ?_
  rw [extract_entity_locations]
  have hne : ¬ ((childPath p k ++ "[" ++ toString xs1.length ++ "]") = "") :=
    bracket_path_ne_empty _ _
  have hpth : childPath (childPath p k ++ "[" ++ toString xs1.length ++ "]") "entity" =
      childPath p k ++ "[" ++ toString xs1.length ++ "]" ++ ".entity" := by
    rw [childPath_of_ne_empty hne, String.append_assoc]
    congr 1
  rw [← hpth]
  refine locsObj_hit_count kvs _ _ "entity" s 1 (dictGet_mem hget) (by decide) hs ?_
  rw [hpth]
  have hbase : 1 ≤ (lookupList (add_location
      (locsEntityList xs1 (childPath p k) 0 acc) s
      (childPath p k ++ "[" ++ toString xs1.length ++ "]" ++ ".entity")) s).count
      (childPath p k ++ "[" ++ toString xs1.length ++ "]" ++ ".entity") := by
    rw [count_lookup_add_self]
    omega
  split
  · exact count_mono_entityKeysPass 1 s _ kvs _ _ hbase
  · exact hbase

theorem C9_entity_list_double_count_witness :
    2 ≤ (lookupList (extract_entity_locations
        (ConfigNode.obj [("entities",
          ConfigNode.list [ConfigNode.obj [("entity", ConfigNode.str "light.hall")]])]) "" [])
        "light.hall").count "entities[0].entity" :=
  (C9_entity_list_double_count "entities" "light.hall" "" [] []
    [("entity", ConfigNode.str "light.hall")] [] (by decide) (by rfl) (by decide)).1


/-! ## Recognized reference positions (claim C6)

`occursB s c` below formalizes the claim's notion of a *recognized* position
for the string `s` inside the tree `c`: an `ENTITY_KEYS` key, an
`ENTITY_LIST_KEYS` key with a List value containing `s`, a `target.entity_id`
field, or a key of an Object whose traversal path's final segment is
`entities` — closed under descending into arbitrary Object values and List
elements.  It is deliberately defined from the claim's wording (ignoring the
scanner's branch priorities) so that soundness of the scanners with respect to
it is a non-trivial statement. -/

/-- The keys whose child path ends in the `entities` segment: the traversal
path `childPath p k` satisfies the source's
`endswith(".entities") or == "entities"` test iff `k` does. -/
def entitiesKey (key : String) : Bool :=
  key == "entities" || strEndsWith key ".entities"

def isStrOf (v : ConfigNode) (s : String) : Bool :=
  match v with
  | .str t => t == s
  | _ => false

/-- `s` is a string element of a List value. -/
def listHas (v : ConfigNode) (s : String) : Bool :=
  match v with
  | .list xs => xs.any (fun x => isStrOf x s)
  | _ => false

/-- `s` appears under the `entity_id` field of a target Object. -/
def targetHas (kvs : List (String × ConfigNode)) (s : String) : Bool :=
  kvs.any (fun kv => kv.1 == "entity_id" && (isStrOf kv.2 s || listHas kv.2 s))

/-- `s` appears under the `entity_id` field of a target Object value. -/
def objTargetHas (v : ConfigNode) (s : String) : Bool :=
  match v with
  | .obj kvs => targetHas kvs s
  | _ => false

/-- `s` is a key of an Object value. -/
def objHasKey (v : ConfigNode) (s : String) : Bool :=
  match v with
  | .obj kvs => kvs.any (fun kv => kv.1 == s)
  | _ => false

/-- `s` is directly matched by one of the four conventions at the entry
`(key, v)` of an Object. -/
def keyHit (key : String) (v : ConfigNode) (s : String) : Bool :=
  (ENTITY_KEYS.contains key && isStrOf v s && isEntityId s) ||
  (ENTITY_LIST_KEYS.contains key && listHas v s && isEntityId s) ||
  (key == "target" && objTargetHas v s && isEntityId s) ||
  (entitiesKey key && objHasKey v s && isEntityId s)

mutual

def occursB (s : String) : ConfigNode → Bool
  | .obj entries => occursEntries s entries
  | .list xs => occursElems s xs
  | _ => false

def occursEntries (s : String) : List (String × ConfigNode) → Bool
  | [] => false
  | (k, v) :: rest => keyHit k v s || occursB s v || occursEntries s rest

def occursElems (s : String) : List ConfigNode → Bool
  | [] => false
  | x :: rest => occursB s x || occursElems s rest

end

/-! ### Path-shape lemmas -/

theorem bracket_data_reverse (q r : String) :
    (q ++ "[" ++ r ++ "]").data.reverse = ']' :: (q ++ "[" ++ r).data.reverse := by
  have h1 : (q ++ "[" ++ r ++ "]").data = (q ++ "[" ++ r).data ++ [']'] := by
    rw [String.data_append]
  rw [h1, List.reverse_append]
  rfl

/-- A path ending in a list index `[i]` never passes the `entities`-path
test. -/
theorem isEntitiesPath_bracket (q r : String) :
    isEntitiesPath (q ++ "[" ++ r ++ "]") = false := by
  have hrev := bracket_data_reverse q r
  rw [isEntitiesPath, Bool.or_eq_false_iff]
  constructor
  · rw [strEndsWith, List.isSuffixOf, hrev]
    have hpat : ".entities".data.reverse = ['s', 'e', 'i', 't', 'i', 't', 'n', 'e', '.'] := by
      decide
    rw [hpat]
    rfl
  · rw [Bool.eq_false_iff]
    intro h
    rw [beq_iff_eq] at h
    have h2 : (q ++ "[" ++ r ++ "]").data.reverse = "entities".data.reverse := by rw [h]
    rw [hrev] at h2
    have h3 := congrArg List.head? h2
    rw [List.head?_cons] at h3
    rw [show "entities".data.reverse.head? = some 's' from by decide] at h3
    exact absurd h3 (by decide)

/-- The `entities`-path test on a child path `parent.key` reduces to the same
test on the key: the dot-separated final segment comes from the key alone. -/
theorem entitiesKey_of_childPath {p k : String}
    (h : isEntitiesPath (childPath p k) = true) : entitiesKey k = true := by
  rw [childPath] at h
  split at h
  · rw [isEntitiesPath] at h
    rw [entitiesKey, Bool.or_comm]
    exact h
  · rw [isEntitiesPath, Bool.or_eq_true] at h
    rcases h with h | h
    · -- the suffix case
      rw [strEndsWith] at h
      have hsuf : ".entities".data <:+ (p ++ "." ++ k).data :=
        List.isSuffixOf_iff_suffix.mp h
      have hdata : (p ++ "." ++ k).data = (p.data ++ ['.']) ++ k.data := by
        rw [String.data_append, String.data_append]
      rw [hdata] at hsuf
      have hpre : ".entities".data.reverse <+: ((p.data ++ ['.']) ++ k.data).reverse :=
        List.reverse_prefix.mpr hsuf
      have hrev : ((p.data ++ ['.']) ++ k.data).reverse =
          k.data.reverse ++ '.' :: p.data.reverse := by
        rw [List.reverse_append, List.reverse_append]
        rfl
      rw [hrev] at hpre
      have hpat : ".entities".data.reverse = ['s', 'e', 'i', 't', 'i', 't', 'n', 'e', '.'] := by
        decide
      have hlen9 : ".entities".data.reverse.length = 9 := by decide
      rcases Nat.lt_or_ge k.data.reverse.length 9 with hlen | hlen
      · -- the key is short: the dot of ".entities" must align with the
        -- separator, forcing k = "entities"
        have htake := List.prefix_iff_eq_take.mp hpre
        rw [hlen9, List.take_append_eq_append_take,
          List.take_of_length_le (le_of_lt hlen)] at htake
        obtain ⟨m, hm⟩ : ∃ m, 9 - k.data.reverse.length = m + 1 :=
          ⟨8 - k.data.reverse.length, by omega⟩
        rw [hm, List.take_succ_cons] at htake
        have hkr : k.data.reverse =
            List.take k.data.reverse.length ".entities".data.reverse := by
          have h5 := congrArg (List.take k.data.reverse.length) htake
          rw [List.take_append_of_le_length (le_refl _), List.take_length] at h5
          exact h5.symm
        have hdrop : List.drop k.data.reverse.length ".entities".data.reverse =
            '.' :: List.take m p.data.reverse := by
          have h6 := congrArg (List.drop k.data.reverse.length) htake
          rw [List.drop_left] at h6
          exact h6
        rw [hpat] at hkr hdrop
        have hbound : k.data.reverse.length < 9 := hlen
        generalize hgen : k.data.reverse.length = n at hkr hdrop hbound
        interval_cases n <;>
          first
            | (have h7 := congrArg List.head? hdrop
               rw [List.head?_cons] at h7
               exact absurd h7 (by decide))
            | (have hk : k = "entities" := by
                 apply String.ext
                 have h1 := congrArg List.reverse hkr
                 rw [List.reverse_reverse] at h1
                 rw [h1]
                 decide
               rw [entitiesKey, hk]
               decide)
      · -- the key is long enough: ".entities" is a suffix of the key itself
        have htake := List.prefix_iff_eq_take.mp hpre
        rw [hlen9, List.take_append_of_le_length hlen] at htake
        have hpre2 : ".entities".data.reverse <+: k.data.reverse := by
          rw [List.prefix_iff_eq_take, hlen9]
          exact htake
        have hsuf2 : ".entities".data <:+ k.data := List.reverse_prefix.mp hpre2
        rw [entitiesKey, strEndsWith, Bool.or_eq_true]
        exact Or.inr (List.isSuffixOf_iff_suffix.mpr hsuf2)
    · exfalso
      rw [beq_iff_eq] at h
      have hmem : '.' ∈ (p ++ "." ++ k).data := by
        rw [String.data_append, String.data_append]
        exact List.mem_append_left _ (List.mem_append_right _ (by decide))
      rw [h] at hmem
      exact absurd hmem (by decide)


/-! ### Soundness of the scanners with respect to the recognized positions -/

theorem occursEntries_of_hit :
    ∀ {entries : List (String × ConfigNode)} {k : String} {v : ConfigNode}
      {s : String}, (k, v) ∈ entries → keyHit k v s = true →
      occursEntries s entries = true
  | [], _, _, _, hmem, _ => absurd hmem (List.not_mem_nil _)
  | (k0, v0) :: rest, k, v, s, hmem, hhit => by
      rw [occursEntries, Bool.or_eq_true, Bool.or_eq_true]
      rcases List.mem_cons.mp hmem with heq | hmem'
      · obtain ⟨rfl, rfl⟩ := Prod.mk.injEq .. ▸ heq
        exact Or.inl (Or.inl hhit)
      · exact Or.inr (occursEntries_of_hit hmem' hhit)

theorem occursEntries_of_descend :
    ∀ {entries : List (String × ConfigNode)} {k : String} {v : ConfigNode}
      {s : String}, (k, v) ∈ entries → occursB s v = true →
      occursEntries s entries = true
  | [], _, _, _, hmem, _ => absurd hmem (List.not_mem_nil _)
  | (k0, v0) :: rest, k, v, s, hmem, hocc => by
      rw [occursEntries, Bool.or_eq_true, Bool.or_eq_true]
      rcases List.mem_cons.mp hmem with heq | hmem'
      · obtain ⟨rfl, rfl⟩ := Prod.mk.injEq .. ▸ heq
        exact Or.inl (Or.inr hocc)
      · exact Or.inr (occursEntries_of_descend hmem' hocc)

theorem occursElems_of_mem :
    ∀ {xs : List ConfigNode} {x : ConfigNode} {s : String},
      x ∈ xs → occursB s x = true → occursElems s xs = true
  | [], _, _, hmem, _ => absurd hmem (List.not_mem_nil _)
  | x0 :: rest, x, s, hmem, hocc => by
      rw [occursElems, Bool.or_eq_true]
      rcases List.mem_cons.mp hmem with rfl | hmem'
      · exact Or.inl hocc
      · exact Or.inr (occursElems_of_mem hmem' hocc)

theorem targetHas_of_mem {kvs : List (String × ConfigNode)} {v : ConfigNode}
    {s : String} (hmem : ("entity_id", v) ∈ kvs)
    (hv : (isStrOf v s || listHas v s) = true) :
    targetHas kvs s = true := by
  rw [targetHas, List.any_eq_true]
  exact ⟨("entity_id", v), hmem, by simp [hv]⟩

theorem entityKeysPass_keys_sound :
    ∀ (entries : List (String × ConfigNode)) (p : String) (l : Locations)
      (s : String), s ∈ keysOf (entityKeysPass entries p l) →
      s ∈ keysOf l ∨
        (entries.any (fun kv => kv.1 == s) = true ∧ isEntityId s = true)
  | [], _, _, _, h => Or.inl h
  | (k0, v0) :: rest, p, l, s, h => by
      rw [entityKeysPass] at h
      rcases entityKeysPass_keys_sound rest p _ s h with h1 | h1
      · split at h1
        · rcases keysOf_add_location.mp h1 with h2 | rfl
          · exact Or.inl h2
          · refine Or.inr ⟨?_, by assumption⟩
            simp [List.any_cons]
        · exact Or.inl h1
      · refine Or.inr ⟨?_, h1.2⟩
        rw [List.any_cons, Bool.or_eq_true]
        exact Or.inr h1.1

theorem targetListLocs_keys_sound :
    ∀ (xs : List ConfigNode) (tp : String) (idx : Nat) (l : Locations)
      (s : String), s ∈ keysOf (targetListLocs xs tp idx l) →
      s ∈ keysOf l ∨
        (xs.any (fun x => isStrOf x s) = true ∧ isEntityId s = true)
  | [], _, _, _, _, h => Or.inl h
  | x :: rest, tp, idx, l, s, h => by
      have hlift : (rest.any (fun x => isStrOf x s) = true ∧ isEntityId s = true) →
          ((x :: rest).any (fun x => isStrOf x s) = true ∧ isEntityId s = true) := by
        intro hr
        refine ⟨?_, hr.2⟩
        rw [List.any_cons, Bool.or_eq_true]
        exact Or.inr hr.1
      cases x
      case str s0 =>
        (rw [targetListLocs] at h <;> try exact fun _ heq => ConfigNode.noConfusion heq)
        rcases targetListLocs_keys_sound rest tp (idx + 1) _ s h with h1 | h1
        · revert h1
          split
          · rename_i hcond
            intro h1
            rcases keysOf_add_location.mp h1 with h2 | rfl
            · exact Or.inl h2
            · refine Or.inr ⟨?_, by assumption⟩
              simp [List.any_cons, isStrOf]
          · exact fun h1 => Or.inl h1
        · exact Or.inr (hlift h1)
      case num n0 =>
        (rw [targetListLocs] at h <;> try exact fun _ heq => ConfigNode.noConfusion heq)
        rcases targetListLocs_keys_sound rest tp (idx + 1) _ s h with h1 | h1
        · exact Or.inl h1
        · exact Or.inr (hlift h1)
      case bool b0 =>
        (rw [targetListLocs] at h <;> try exact fun _ heq => ConfigNode.noConfusion heq)
        rcases targetListLocs_keys_sound rest tp (idx + 1) _ s h with h1 | h1
        · exact Or.inl h1
        · exact Or.inr (hlift h1)
      case null =>
        (rw [targetListLocs] at h <;> try exact fun _ heq => ConfigNode.noConfusion heq)
        rcases targetListLocs_keys_sound rest tp (idx + 1) _ s h with h1 | h1
        · exact Or.inl h1
        · exact Or.inr (hlift h1)
      case obj kvs0 =>
        (rw [targetListLocs] at h <;> try exact fun _ heq => ConfigNode.noConfusion heq)
        rcases targetListLocs_keys_sound rest tp (idx + 1) _ s h with h1 | h1
        · exact Or.inl h1
        · exact Or.inr (hlift h1)
      case list xs0 =>
        (rw [targetListLocs] at h <;> try exact fun _ heq => ConfigNode.noConfusion heq)
        rcases targetListLocs_keys_sound rest tp (idx + 1) _ s h with h1 | h1
        · exact Or.inl h1
        · exact Or.inr (hlift h1)

theorem targetLocs_keys_sound (kvs : List (String × ConfigNode)) (cp : String)
    (l : Locations) (s : String) (h : s ∈ keysOf (targetLocs kvs cp l)) :
    s ∈ keysOf l ∨ (targetHas kvs s = true ∧ isEntityId s = true) := by
  rw [targetLocs] at h
  revert h
  cases hdg : dictGet kvs "entity_id" with
  | none => exact fun h => Or.inl h
  | some v =>
      cases v <;> simp only
      case str s0 =>
        split
        · intro h
          rcases keysOf_add_location.mp h with h2 | rfl
          · exact Or.inl h2
          · refine Or.inr ⟨targetHas_of_mem (dictGet_mem hdg) ?_, by assumption⟩
            simp [isStrOf, listHas]
        · exact fun h => Or.inl h
      case num => exact fun h => Or.inl h
      case bool => exact fun h => Or.inl h
      case null => exact fun h => Or.inl h
      case obj => exact fun h => Or.inl h
      case list xs =>
        intro h
        rcases targetListLocs_keys_sound xs _ 0 l s h with h1 | h1
        · exact Or.inl h1
        · exact Or.inr ⟨targetHas_of_mem (dictGet_mem hdg)
            (by simp [listHas, h1.1]), h1.2⟩

/-- The scene-style key hit of an Object node. -/
def keysHitB (s : String) : ConfigNode → Bool
  | .obj entries => entries.any (fun kv => kv.1 == s) && isEntityId s
  | _ => false

mutual

theorem locs_keys_sound :
    ∀ (c : ConfigNode) (cp : String) (l : Locations) (s : String),
      s ∈ keysOf (extract_entity_locations c cp l) →
      s ∈ keysOf l ∨ occursB s c = true ∨
        (isEntitiesPath cp = true ∧ keysHitB s c = true)
  | .obj entries, cp, l, s, h => by
      rw [extract_entity_locations] at h
      rcases locsObj_keys_sound entries cp _ s h with h1 | h1
      · revert h1
        split
        · intro h1
          rcases entityKeysPass_keys_sound entries cp l s h1 with h2 | h2
          · exact Or.inl h2
          · refine Or.inr (Or.inr ⟨by assumption, ?_⟩)
            rw [keysHitB, Bool.and_eq_true]
            exact ⟨h2.1, h2.2⟩
        · exact fun h1 => Or.inl h1
      · exact Or.inr (Or.inl (by rw [occursB]; exact h1))
  | .list xs, cp, l, s, h => by
      rw [extract_entity_locations] at h
      rcases locsList_keys_sound xs cp 0 l s h with h1 | h1
      · exact Or.inl h1
      · exact Or.inr (Or.inl (by rw [occursB]; exact h1))
  | .str _, _, _, s, h => Or.inl h
  | .num _, _, _, s, h => Or.inl h
  | .bool _, _, _, s, h => Or.inl h
  | .null, _, _, s, h => Or.inl h

theorem locsObj_keys_sound :
    ∀ (entries : List (String × ConfigNode)) (cp : String) (l : Locations)
      (s : String), s ∈ keysOf (locsObj entries cp l) →
      s ∈ keysOf l ∨ occursEntries s entries = true
  | [], _, _, _, h => Or.inl h
  | (key, value) :: rest, cp, l, s, h => by
      have hlift : occursEntries s rest = true →
          occursEntries s ((key, value) :: rest) = true := by
        intro hr
        rw [occursEntries, Bool.or_eq_true]
        exact Or.inr hr
      have hhit : keyHit key value s = true →
          occursEntries s ((key, value) :: rest) = true := by
        intro hr
        rw [occursEntries, Bool.or_eq_true, Bool.or_eq_true]
        exact Or.inl (Or.inl hr)
      have hdesc : occursB s value = true →
          occursEntries s ((key, value) :: rest) = true := by
        intro hr
        rw [occursEntries, Bool.or_eq_true, Bool.or_eq_true]
        exact Or.inl (Or.inr hr)
      cases value
      case str s0 =>
        (rw [locsObj] at h <;> try exact fun _ heq => ConfigNode.noConfusion heq)
        rcases locsObj_keys_sound rest cp _ s h with h1 | h1
        · revert h1
          split
          · rename_i hcond
            intro h1
            rw [addValueLoc] at h1
            rcases keysOf_add_location.mp h1 with h2 | rfl
            · exact Or.inl h2
            · refine Or.inr (hhit ?_)
              rw [keyHit]
              rw [Bool.and_eq_true] at hcond
              have hsid : isEntityId s = true := by
                simpa [is_entity_id] using hcond.2
              have hm : key ∈ ENTITY_KEYS := by simpa using hcond.1
              simp [hm, isStrOf, hsid]
          · exact fun h1 => Or.inl h1
        · exact Or.inr (hlift h1)
      case num n0 =>
        (rw [locsObj] at h <;> try exact fun _ heq => ConfigNode.noConfusion heq)
        rcases locsObj_keys_sound rest cp _ s h with h1 | h1
        · revert h1
          split
          · rename_i hcond
            exact absurd (Bool.and_elim_right hcond) (by simp [is_entity_id])
          · exact fun h1 => Or.inl h1
        · exact Or.inr (hlift h1)
      case bool b0 =>
        (rw [locsObj] at h <;> try exact fun _ heq => ConfigNode.noConfusion heq)
        rcases locsObj_keys_sound rest cp _ s h with h1 | h1
        · revert h1
          split
          · rename_i hcond
            exact absurd (Bool.and_elim_right hcond) (by simp [is_entity_id])
          · exact fun h1 => Or.inl h1
        · exact Or.inr (hlift h1)
      case null =>
        (rw [locsObj] at h <;> try exact fun _ heq => ConfigNode.noConfusion heq)
        rcases locsObj_keys_sound rest cp _ s h with h1 | h1
        · revert h1
          split
          · rename_i hcond
            exact absurd (Bool.and_elim_right hcond) (by simp [is_entity_id])
          · exact fun h1 => Or.inl h1
        · exact Or.inr (hlift h1)
      case obj kvs =>
        (rw [locsObj] at h <;> try exact fun _ heq => ConfigNode.noConfusion heq)
        rcases locsObj_keys_sound rest cp _ s h with h1 | h1
        · revert h1
          split
          · rename_i hcond
            exact absurd (Bool.and_elim_right hcond) (by simp [is_entity_id])
          · split
            · rename_i htgt
              intro h1
              rcases targetLocs_keys_sound kvs _ l s h1 with h2 | h2
              · exact Or.inl h2
              · refine Or.inr (hhit ?_)
                rw [keyHit]
                have hm : key = "target" := by simpa using htgt
                simp [hm, objTargetHas, h2.1, h2.2]
            · intro h1
              rcases locs_keys_sound (ConfigNode.obj kvs) _ l s h1 with h2 | h2 | h2
              · exact Or.inl h2
              · exact Or.inr (hdesc h2)
              · refine Or.inr (hhit ?_)
                have hek : entitiesKey key = true := entitiesKey_of_childPath h2.1
                have := h2.2
                rw [keysHitB, Bool.and_eq_true] at this
                rw [keyHit]
                simp [hek, objHasKey, this.1, this.2]
        · exact Or.inr (hlift h1)
      case list xs =>
        (rw [locsObj] at h <;> try exact fun _ heq => ConfigNode.noConfusion heq)
        rcases locsObj_keys_sound rest cp _ s h with h1 | h1
        · revert h1
          split
          · rename_i hcond
            exact absurd (Bool.and_elim_right hcond) (by simp [is_entity_id])
          · split
            · rename_i hlk
              intro h1
              rcases locsEntityList_keys_sound xs _ 0 l s h1 with h2 | h2 | h2
              · exact Or.inl h2
              · refine Or.inr (hhit ?_)
                rw [keyHit]
                have hm : key ∈ ENTITY_LIST_KEYS := by simpa using hlk
                simp [hm, listHas, h2.1, h2.2]
              · exact Or.inr (hdesc (by rw [occursB]; exact h2))
            · intro h1
              rcases locsList_keys_sound xs _ 0 l s h1 with h2 | h2
              · exact Or.inl h2
              · exact Or.inr (hdesc (by rw [occursB]; exact h2))
        · exact Or.inr (hlift h1)

theorem locsEntityList_keys_sound :
    ∀ (xs : List ConfigNode) (cp : String) (idx : Nat) (l : Locations)
      (s : String), s ∈ keysOf (locsEntityList xs cp idx l) →
      s ∈ keysOf l ∨
        (xs.any (fun x => isStrOf x s) = true ∧ isEntityId s = true) ∨
        occursElems s xs = true
  | [], _, _, _, _, h => Or.inl h
  | item :: rest, cp, idx, l, s, h => by
      have hlift2 : (rest.any (fun x => isStrOf x s) = true ∧ isEntityId s = true) →
          ((item :: rest).any (fun x => isStrOf x s) = true ∧ isEntityId s = true) := by
        intro hr
        refine ⟨?_, hr.2⟩
        rw [List.any_cons, Bool.or_eq_true]
        exact Or.inr hr.1
      have hlift3 : occursElems s rest = true →
          occursElems s (item :: rest) = true := by
        intro hr
        rw [occursElems, Bool.or_eq_true]
        exact Or.inr hr
      have hheadocc : occursB s item = true →
          occursElems s (item :: rest) = true := by
        intro hr
        rw [occursElems, Bool.or_eq_true]
        exact Or.inl hr
      cases item
      case str s0 =>
        (rw [locsEntityList] at h <;> try exact fun _ heq => ConfigNode.noConfusion heq)
        rcases locsEntityList_keys_sound rest cp (idx + 1) _ s h with h1 | h1 | h1
        · revert h1
          split
          · rename_i hcond
            intro h1
            rw [addValueLoc] at h1
            rcases keysOf_add_location.mp h1 with h2 | rfl
            · exact Or.inl h2
            · refine Or.inr (Or.inl ⟨?_, by simpa [is_entity_id] using hcond⟩)
              rw [List.any_cons, Bool.or_eq_true]
              exact Or.inl (by simp [isStrOf])
          · exact fun h1 => Or.inl h1
        · exact Or.inr (Or.inl (hlift2 h1))
        · exact Or.inr (Or.inr (hlift3 h1))
      case num n0 =>
        (rw [locsEntityList] at h <;> try exact fun _ heq => ConfigNode.noConfusion heq)
        rcases locsEntityList_keys_sound rest cp (idx + 1) _ s h with h1 | h1 | h1
        · exact Or.inl h1
        · exact Or.inr (Or.inl (hlift2 h1))
        · exact Or.inr (Or.inr (hlift3 h1))
      case bool b0 =>
        (rw [locsEntityList] at h <;> try exact fun _ heq => ConfigNode.noConfusion heq)
        rcases locsEntityList_keys_sound rest cp (idx + 1) _ s h with h1 | h1 | h1
        · exact Or.inl h1
        · exact Or.inr (Or.inl (hlift2 h1))
        · exact Or.inr (Or.inr (hlift3 h1))
      case null =>
        (rw [locsEntityList] at h <;> try exact fun _ heq => ConfigNode.noConfusion heq)
        rcases locsEntityList_keys_sound rest cp (idx + 1) _ s h with h1 | h1 | h1
        · exact Or.inl h1
        · exact Or.inr (Or.inl (hlift2 h1))
        · exact Or.inr (Or.inr (hlift3 h1))
      case list xs0 =>
        (rw [locsEntityList] at h <;> try exact fun _ heq => ConfigNode.noConfusion heq)
        rcases locsEntityList_keys_sound rest cp (idx + 1) _ s h with h1 | h1 | h1
        · exact Or.inl h1
        · exact Or.inr (Or.inl (hlift2 h1))
        · exact Or.inr (Or.inr (hlift3 h1))
      case obj kvs =>
        (rw [locsEntityList] at h <;> try exact fun _ heq => ConfigNode.noConfusion heq)
        rcases locsEntityList_keys_sound rest cp (idx + 1) _ s h with h1 | h1 | h1
        · revert h1
          intro h1
          rcases locs_keys_sound (ConfigNode.obj kvs) _ _ s h1 with h2 | h2 | h2
          · -- into the pre-accumulator produced by the "entity" lookup
            revert h2
            cases hdg : dictGet kvs "entity" with
            | none => exact fun h2 => Or.inl h2
            | some v =>
                cases v <;> simp only
                case str s0 =>
                  split
                  · rename_i hcond
                    intro h2
                    rw [addValueLoc] at h2
                    rcases keysOf_add_location.mp h2 with h3 | rfl
                    · exact Or.inl h3
                    · refine Or.inr (Or.inr (hheadocc ?_))
                      rw [occursB]
                      refine occursEntries_of_hit (dictGet_mem hdg) ?_
                      rw [keyHit]
                      have hs0 : isEntityId s = true := by
                        simpa [is_entity_id] using hcond
                      simp [ENTITY_KEYS, isStrOf, hs0]
                  · exact fun h2 => Or.inl h2
                case num => exact fun h2 => Or.inl h2
                case bool => exact fun h2 => Or.inl h2
                case null => exact fun h2 => Or.inl h2
                case obj => exact fun h2 => Or.inl h2
                case list => exact fun h2 => Or.inl h2
          · exact Or.inr (Or.inr (hheadocc h2))
          · exact absurd h2.1 (by rw [isEntitiesPath_bracket]; exact Bool.false_ne_true)
        · exact Or.inr (Or.inl (hlift2 h1))
        · exact Or.inr (Or.inr (hlift3 h1))

theorem locsList_keys_sound :
    ∀ (xs : List ConfigNode) (cp : String) (idx : Nat) (l : Locations)
      (s : String), s ∈ keysOf (locsList xs cp idx l) →
      s ∈ keysOf l ∨ occursElems s xs = true
  | [], _, _, _, _, h => Or.inl h
  | item :: rest, cp, idx, l, s, h => by
      (rw [locsList] at h <;> try exact fun _ heq => ConfigNode.noConfusion heq)
      rcases locsList_keys_sound rest cp (idx + 1) _ s h with h1 | h1
      · rcases locs_keys_sound item _ l s h1 with h2 | h2 | h2
        · exact Or.inl h2
        · refine Or.inr ?_
          rw [occursElems, Bool.or_eq_true]
          exact Or.inl h2
        · exact absurd h2.1 (by rw [isEntitiesPath_bracket]; exact Bool.false_ne_true)
      · refine Or.inr ?_
        rw [occursElems, Bool.or_eq_true]
        exact Or.inr h1

end

/-- Claim C6: a string matching the entity-id pattern that appears only
outside the recognized conventions (no `ENTITY_KEYS` key holds it, no
`ENTITY_LIST_KEYS` list contains it, no `target.entity_id` holds it, and it is
not a key of an Object reached under an `entities`-segment path — anywhere in
the tree, as expressed by `occursB`) never appears in the output of
`extract_entity_references` or in the keys of `extract_entity_locations`. -/
theorem C6_no_false_positives (c : ConfigNode) (s : String)
    (hs : isEntityId s = true) (hnot : occursB s c = false) :
    s ∉ extract_entity_references c [] ∧
    s ∉ keysOf (extract_entity_locations c "" []) := by
  have hlocs : s ∉ keysOf (extract_entity_locations c "" []) := by
    intro hmem
    rcases locs_keys_sound c "" [] s hmem with h | h | h
    · simp [keysOf] at h
    · rw [hnot] at h
      exact Bool.false_ne_true h
    · rw [show isEntitiesPath "" = false from by decide] at h
      exact Bool.false_ne_true h.1
  exact ⟨fun hmem => hlocs (refs_sub_locs c [] "" [] (by simp) s hmem), hlocs⟩

theorem C6_no_false_positives_witness :
    "light.fake" ∉ extract_entity_references
      (ConfigNode.obj [("name", ConfigNode.str "light.fake")]) [] ∧
    "light.fake" ∉ keysOf (extract_entity_locations
      (ConfigNode.obj [("name", ConfigNode.str "light.fake")]) "" []) :=
  C6_no_false_positives (ConfigNode.obj [("name", ConfigNode.str "light.fake")])
    "light.fake" (by decide) (by decide)


/-! ## Error-free execution (claim C5)

The only operation in either scanner that can raise in Python is the dict
indexing `item["entity"]`, and the source guards it with `"entity" in item`
(short-circuit).  The regex test is guarded by `isinstance(value, str)` inside
`_is_entity_id`, and `dict.get` returns `None` on a missing key.  The
`Except`-embedding below makes dict indexing fallible exactly as in Python and
mirrors everything else; both scanners are proved to return `ok` with the same
value as the total functions, on every input. -/

/-- Fallible dict indexing `d[key]` (raises `KeyError` on a missing key). -/
def dictGetE : List (String × ConfigNode) → String → Except String ConfigNode
  | [], key => .error ("KeyError: " ++ key)
  | (k, v) :: rest, key => if k == key then .ok v else dictGetE rest key

/-- `key in d`. -/
def hasKey (kvs : List (String × ConfigNode)) (key : String) : Bool :=
  (dictGet kvs key).isSome

theorem dictGetE_eq :
    ∀ (kvs : List (String × ConfigNode)) (key : String),
      dictGetE kvs key =
        match dictGet kvs key with
        | some v => Except.ok v
        | none => Except.error ("KeyError: " ++ key)
  | [], _ => rfl
  | (k, v) :: rest, key => by
      rw [dictGetE, dictGet]
      split
      · rfl
      · exact dictGetE_eq rest key

mutual

def extract_entity_referencesE :
    ConfigNode → List String → Except String (List String)
  | .obj entries, acc => refsObjE entries acc
  | .list xs, acc => refsListE xs acc
  | _, acc => .ok acc

def refsObjE :
    List (String × ConfigNode) → List String → Except String (List String)
  | [], acc => .ok acc
  | (key, value) :: rest, acc =>
      match
        (if ENTITY_KEYS.contains key && is_entity_id value then
          Except.ok (addValue acc value)
        else match value with
          | .list xs =>
              if ENTITY_LIST_KEYS.contains key then refsEntityListE xs acc
              else refsListE xs acc
          | .obj kvs =>
              if key == "target" then Except.ok (targetRefs kvs acc)
              else refsObjE kvs acc
          | _ => Except.ok acc) with
      | .ok acc1 => refsObjE rest acc1
      | .error e => .error e

def refsEntityListE :
    List ConfigNode → List String → Except String (List String)
  | [], acc => .ok acc
  | item :: rest, acc =>
      match
        (if is_entity_id item then Except.ok (addValue acc item)
         else match item with
           | .obj kvs =>
              if hasKey kvs "entity" then
                match dictGetE kvs "entity" with
                | .ok v =>
                    extract_entity_referencesE (ConfigNode.obj kvs)
                      (if is_entity_id v then addValue acc v else acc)
                | .error e => .error e
              else extract_entity_referencesE (ConfigNode.obj kvs) acc
           | _ => Except.ok acc) with
      | .ok acc1 => refsEntityListE rest acc1
      | .error e => .error e

def refsListE : List ConfigNode → List String → Except String (List String)
  | [], acc => .ok acc
  | x :: rest, acc =>
      match extract_entity_referencesE x acc with
      | .ok acc1 => refsListE rest acc1
      | .error e => .error e

end

mutual

def extract_entity_locationsE :
    ConfigNode → String → Locations → Except String Locations
  | .obj entries, cp, locs =>
      locsObjE entries cp
        (if isEntitiesPath cp then entityKeysPass entries cp locs else locs)
  | .list xs, cp, locs => locsListE xs cp 0 locs
  | _, _, locs => .ok locs

def locsObjE :
    List (String × ConfigNode) → String → Locations → Except String Locations
  | [], _, locs => .ok locs
  | (key, value) :: rest, cp, locs =>
      match
        (if ENTITY_KEYS.contains key && is_entity_id value then
          Except.ok (addValueLoc locs value (childPath cp key))
        else match value with
          | .list xs =>
              if ENTITY_LIST_KEYS.contains key then
                locsEntityListE xs (childPath cp key) 0 locs
              else locsListE xs (childPath cp key) 0 locs
          | .obj kvs =>
              if key == "target" then
                Except.ok (targetLocs kvs (childPath cp key) locs)
              else extract_entity_locationsE (ConfigNode.obj kvs) (childPath cp key) locs
          | _ => Except.ok locs) with
      | .ok locs1 => locsObjE rest cp locs1
      | .error e => .error e

def locsEntityListE :
    List ConfigNode → String → Nat → Locations → Except String Locations
  | [], _, _, locs => .ok locs
  | item :: rest, cp, idx, locs =>
      match
        (if is_entity_id item then
          Except.ok (addValueLoc locs item (cp ++ "[" ++ toString idx ++ "]"))
         else match item with
           | .obj kvs =>
              if hasKey kvs "entity" then
                match dictGetE kvs "entity" with
                | .ok v =>
                    extract_entity_locationsE (ConfigNode.obj kvs)
                      (cp ++ "[" ++ toString idx ++ "]")
                      (if is_entity_id v then
                        addValueLoc locs v (cp ++ "[" ++ toString idx ++ "]" ++ ".entity")
                       else locs)
                | .error e => .error e
              else
                extract_entity_locationsE (ConfigNode.obj kvs)
                  (cp ++ "[" ++ toString idx ++ "]") locs
           | _ => Except.ok locs) with
      | .ok locs1 => locsEntityListE rest cp (idx + 1) locs1
      | .error e => .error e

def locsListE :
    List ConfigNode → String → Nat → Locations → Except String Locations
  | [], _, _, locs => .ok locs
  | item :: rest, cp, idx, locs =>
      match extract_entity_locationsE item (cp ++ "[" ++ toString idx ++ "]") locs with
      | .ok locs1 => locsListE rest cp (idx + 1) locs1
      | .error e => .error e

end


mutual

theorem refsE_eq :
    ∀ (c : ConfigNode) (acc : List String),
      extract_entity_referencesE c acc =
        Except.ok (extract_entity_references c acc)
  | .obj entries, acc => refsObjE_eq entries acc
  | .list xs, acc => refsListE_eq xs acc
  | .str _, _ => rfl
  | .num _, _ => rfl
  | .bool _, _ => rfl
  | .null, _ => rfl

theorem refsObjE_eq :
    ∀ (entries : List (String × ConfigNode)) (acc : List String),
      refsObjE entries acc = Except.ok (refsObj entries acc)
  | [], _ => rfl
  | (key, value) :: rest, acc => by
      cases value <;>
        (rw [refsObjE] <;> try exact fun _ heq => ConfigNode.noConfusion heq) <;>
        (rw [refsObj] <;> try exact fun _ heq => ConfigNode.noConfusion heq)
      case str s =>
        by_cases hC : (ENTITY_KEYS.contains key && is_entity_id (ConfigNode.str s)) = true
        · rw [if_pos hC, if_pos hC]
          exact refsObjE_eq rest _
        · rw [if_neg hC, if_neg hC]
          exact refsObjE_eq rest _
      case num n =>
        rw [if_neg (by simp [is_entity_id]), if_neg (by simp [is_entity_id])]
        exact refsObjE_eq rest _
      case bool b =>
        rw [if_neg (by simp [is_entity_id]), if_neg (by simp [is_entity_id])]
        exact refsObjE_eq rest _
      case null =>
        rw [if_neg (by simp [is_entity_id]), if_neg (by simp [is_entity_id])]
        exact refsObjE_eq rest _
      case obj kvs =>
        by_cases hT : (key == "target") = true
        · have hkey : key = "target" := by simpa using hT
          subst hkey
          simp [refsObjE, refsObj, is_entity_id, ENTITY_KEYS]
          exact refsObjE_eq rest _
        · have hT' : ¬ key = "target" := by simpa using hT
          simp [refsObjE, refsObj, is_entity_id, hT']
          rw [refsObjE_eq kvs acc]
          exact refsObjE_eq rest _
      case list xs =>
        by_cases hL : ENTITY_LIST_KEYS.contains key = true
        · rcases (show key = "entities" ∨ key = "state_filter" by
              simpa [ENTITY_LIST_KEYS] using hL) with rfl | rfl <;>
            (simp [refsObjE, refsObj, is_entity_id, ENTITY_KEYS, ENTITY_LIST_KEYS]
             rw [refsEntityListE_eq xs acc]
             exact refsObjE_eq rest _)
        · have hL' : key ∉ ENTITY_LIST_KEYS := by simpa using hL
          simp [refsObjE, refsObj, is_entity_id, hL']
          rw [refsListE_eq xs acc]
          exact refsObjE_eq rest _

theorem refsEntityListE_eq :
    ∀ (xs : List ConfigNode) (acc : List String),
      refsEntityListE xs acc = Except.ok (refsEntityList xs acc)
  | [], _ => rfl
  | item :: rest, acc => by
      cases item <;>
        (rw [refsEntityListE] <;> try exact fun _ heq => ConfigNode.noConfusion heq) <;>
        (rw [refsEntityList] <;> try exact fun _ heq => ConfigNode.noConfusion heq)
      case str s =>
        by_cases hC : is_entity_id (ConfigNode.str s) = true
        · rw [if_pos hC, if_pos hC]
          exact refsEntityListE_eq rest _
        · rw [if_neg hC, if_neg hC]
          exact refsEntityListE_eq rest _
      case num n => exact refsEntityListE_eq rest _
      case bool b => exact refsEntityListE_eq rest _
      case null => exact refsEntityListE_eq rest _
      case list xs0 => exact refsEntityListE_eq rest _
      case obj kvs =>
        by_cases hH : hasKey kvs "entity" = true
        · obtain ⟨v, hv⟩ : ∃ v, dictGet kvs "entity" = some v := by
            rw [hasKey] at hH
            exact Option.isSome_iff_exists.mp hH
          rw [if_pos hH]
          simp only [dictGetE_eq, hv]
          rw [refsE_eq (ConfigNode.obj kvs) _]
          exact refsEntityListE_eq rest _
        · have hnone : dictGet kvs "entity" = none := by
            rw [hasKey] at hH
            exact Option.not_isSome_iff_eq_none.mp (by simpa using hH)
          rw [if_neg hH]
          simp only [hnone]
          rw [refsE_eq (ConfigNode.obj kvs) acc]
          exact refsEntityListE_eq rest _

theorem refsListE_eq :
    ∀ (xs : List ConfigNode) (acc : List String),
      refsListE xs acc = Except.ok (refsList xs acc)
  | [], _ => rfl
  | x :: rest, acc => by
      rw [refsListE, refsList, refsE_eq x acc]
      exact refsListE_eq rest _

end

mutual

theorem locsE_eq :
    ∀ (c : ConfigNode) (cp : String) (locs : Locations),
      extract_entity_locationsE c cp locs =
        Except.ok (extract_entity_locations c cp locs)
  | .obj entries, cp, locs => by
      rw [extract_entity_locationsE, extract_entity_locations]
      exact locsObjE_eq entries cp _
  | .list xs, cp, locs => by
      rw [extract_entity_locationsE, extract_entity_locations]
      exact locsListE_eq xs cp 0 locs
  | .str _, _, _ => rfl
  | .num _, _, _ => rfl
  | .bool _, _, _ => rfl
  | .null, _, _ => rfl

theorem locsObjE_eq :
    ∀ (entries : List (String × ConfigNode)) (cp : String) (locs : Locations),
      locsObjE entries cp locs = Except.ok (locsObj entries cp locs)
  | [], _, _ => rfl
  | (key, value) :: rest, cp, locs => by
      cases value <;>
        (rw [locsObjE] <;> try exact fun _ heq => ConfigNode.noConfusion heq) <;>
        (rw [locsObj] <;> try exact fun _ heq => ConfigNode.noConfusion heq)
      case str s =>
        by_cases hC : (ENTITY_KEYS.contains key && is_entity_id (ConfigNode.str s)) = true
        · rw [if_pos hC, if_pos hC]
          exact locsObjE_eq rest cp _
        · rw [if_neg hC, if_neg hC]
          exact locsObjE_eq rest cp _
      case num n =>
        rw [if_neg (by simp [is_entity_id]), if_neg (by simp [is_entity_id])]
        exact locsObjE_eq rest cp _
      case bool b =>
        rw [if_neg (by simp [is_entity_id]), if_neg (by simp [is_entity_id])]
        exact locsObjE_eq rest cp _
      case null =>
        rw [if_neg (by simp [is_entity_id]), if_neg (by simp [is_entity_id])]
        exact locsObjE_eq rest cp _
      case obj kvs =>
        by_cases hT : (key == "target") = true
        · have hkey : key = "target" := by simpa using hT
          subst hkey
          simp [locsObjE, locsObj, is_entity_id, ENTITY_KEYS]
          exact locsObjE_eq rest cp _
        · have hT' : ¬ key = "target" := by simpa using hT
          simp [locsObjE, locsObj, is_entity_id, hT']
          rw [locsE_eq (ConfigNode.obj kvs) (childPath cp key) locs]
          exact locsObjE_eq rest cp _
      case list xs =>
        by_cases hL : ENTITY_LIST_KEYS.contains key = true
        · rcases (show key = "entities" ∨ key = "state_filter" by
              simpa [ENTITY_LIST_KEYS] using hL) with rfl | rfl <;>
            (simp [locsObjE, locsObj, is_entity_id, ENTITY_KEYS, ENTITY_LIST_KEYS]
             rw [locsEntityListE_eq xs _ 0 locs]
             exact locsObjE_eq rest cp _)
        · have hL' : key ∉ ENTITY_LIST_KEYS := by simpa using hL
          simp [locsObjE, locsObj, is_entity_id, hL']
          rw [locsListE_eq xs _ 0 locs]
          exact locsObjE_eq rest cp _

theorem locsEntityListE_eq :
    ∀ (xs : List ConfigNode) (cp : String) (idx : Nat) (locs : Locations),
      locsEntityListE xs cp idx locs = Except.ok (locsEntityList xs cp idx locs)
  | [], _, _, _ => rfl
  | item :: rest, cp, idx, locs => by
      cases item <;>
        (rw [locsEntityListE] <;> try exact fun _ heq => ConfigNode.noConfusion heq) <;>
        (rw [locsEntityList] <;> try exact fun _ heq => ConfigNode.noConfusion heq)
      case str s =>
        by_cases hC : is_entity_id (ConfigNode.str s) = true
        · rw [if_pos hC, if_pos hC]
          exact locsEntityListE_eq rest cp (idx + 1) _
        · rw [if_neg hC, if_neg hC]
          exact locsEntityListE_eq rest cp (idx + 1) _
      case num n => exact locsEntityListE_eq rest cp (idx + 1) _
      case bool b => exact locsEntityListE_eq rest cp (idx + 1) _
      case null => exact locsEntityListE_eq rest cp (idx + 1) _
      case list xs0 => exact locsEntityListE_eq rest cp (idx + 1) _
      case obj kvs =>
        by_cases hH : hasKey kvs "entity" = true
        · obtain ⟨v, hv⟩ : ∃ v, dictGet kvs "entity" = some v := by
            rw [hasKey] at hH
            exact Option.isSome_iff_exists.mp hH
          rw [if_pos hH]
          simp only [dictGetE_eq, hv]
          rw [locsE_eq (ConfigNode.obj kvs) _ _]
          exact locsEntityListE_eq rest cp (idx + 1) _
        · have hnone : dictGet kvs "entity" = none := by
            rw [hasKey] at hH
            exact Option.not_isSome_iff_eq_none.mp (by simpa using hH)
          rw [if_neg hH]
          simp only [hnone]
          rw [locsE_eq (ConfigNode.obj kvs) _ locs]
          exact locsEntityListE_eq rest cp (idx + 1) _

theorem locsListE_eq :
    ∀ (xs : List ConfigNode) (cp : String) (idx : Nat) (locs : Locations),
      locsListE xs cp idx locs = Except.ok (locsList xs cp idx locs)
  | [], _, _, _ => rfl
  | x :: rest, cp, idx, locs => by
      rw [locsListE, locsList, locsE_eq x _ locs]
      exact locsListE_eq rest cp (idx + 1) _

end

/-- Claim C5: on every input tree both scanners run to completion without
raising — the `Except`-monad embedding (in which Python dict indexing can
fail) always returns `ok`, with the same value as the total functions;
malformed or missing keys are simply not matched. -/
theorem C5_no_exceptions (c : ConfigNode) :
    extract_entity_referencesE c [] =
      Except.ok (extract_entity_references c []) ∧
    extract_entity_locationsE c "" [] =
      Except.ok (extract_entity_locations c "" []) :=
  ⟨refsE_eq c [], locsE_eq c "" []⟩

end HaCrud
